import Mathlib

/-!
Verification development for the scene camera geometry and navigation
graph engine of the pointcloud viewer: the NPY array decoder, the
pose decomposition, the navigation graph builder (phases A and B) and
the world-to-image projector, embedded shallowly in Lean.

JavaScript numbers are modelled exactly: a value is either a rational
(`JVal.fin`), positive or negative infinity, NaN, or the non-number
`undefined` (which arises from out-of-range array reads and behaves
as NaN under arithmetic while being distinguishable via the nullish
coalescing operator). Rational arithmetic is exact, so rounding is
idealised away; all properties checked here are order- and
structure-level properties that do not depend on rounding.
-/

/-- Kernel-computable rational addition (agrees with `+` on `ℚ`). -/
def qadd (a b : ℚ) : ℚ := mkRat (a.num * b.den + b.num * a.den) (a.den * b.den)

/-- Kernel-computable rational subtraction (agrees with `-` on `ℚ`). -/
def qsub (a b : ℚ) : ℚ := mkRat (a.num * b.den - b.num * a.den) (a.den * b.den)

/-- Kernel-computable rational negation (agrees with negation on `ℚ`). -/
def qneg (a : ℚ) : ℚ := mkRat (-a.num) a.den

/-- Kernel-computable rational multiplication (agrees with `*` on `ℚ`). -/
def qmul (a b : ℚ) : ℚ := mkRat (a.num * b.num) (a.den * b.den)

/-- Kernel-computable rational division (agrees with `/` on `ℚ`,
with the `x / 0 = 0` convention; the embedding only divides by
nonzero rationals). -/
def qdiv (a b : ℚ) : ℚ := Rat.divInt (a.num * b.den) (a.den * b.num)

theorem qadd_eq (a b : ℚ) : qadd a b = a + b := (Rat.add_def' a b).symm

theorem qsub_eq (a b : ℚ) : qsub a b = a - b := (Rat.sub_def' a b).symm

theorem qneg_eq (a : ℚ) : qneg a = -a := Rat.mkRat_self (-a)

theorem qmul_eq (a b : ℚ) : qmul a b = a * b := by
  rw [qmul, Rat.mul_def, Rat.normalize_eq_mkRat]

theorem qdiv_eq (a b : ℚ) : qdiv a b = a / b := by
  rcases eq_or_ne b 0 with rfl | hb
  · simp [qdiv, Rat.divInt_eq_div]
  · have hbn : (b.num : ℚ) ≠ 0 := Int.cast_ne_zero.mpr (Rat.num_ne_zero.mpr hb)
    have had : ((a.den : ℚ)) ≠ 0 := Nat.cast_ne_zero.mpr a.den_nz
    have hbd : ((b.den : ℚ)) ≠ 0 := Nat.cast_ne_zero.mpr b.den_nz
    have ha : (a.num : ℚ) = a * (a.den : ℚ) := by
      calc (a.num : ℚ) = (a.num : ℚ) / a.den * a.den := (div_mul_cancel₀ _ had).symm
        _ = a * a.den := by rw [Rat.num_div_den a]
    have hb2 : (b.num : ℚ) = b * (b.den : ℚ) := by
      calc (b.num : ℚ) = (b.num : ℚ) / b.den * b.den := (div_mul_cancel₀ _ hbd).symm
        _ = b * b.den := by rw [Rat.num_div_den b]
    rw [qdiv, Rat.divInt_eq_div]
    push_cast
    rw [div_eq_div_iff (mul_ne_zero had hbn) hb, ha, hb2]
    ring

/-- Kernel-computable integer square root: the greatest `r ≤ n` with
`r * r ≤ n`. Exact on perfect squares. -/
def intSqrt (n : Nat) : Nat := Nat.findGreatest (fun r => r * r ≤ n) n

/-- A JavaScript numeric value: a finite rational, an infinity, NaN,
or `undefined` (the result of reading a missing array element). -/
inductive JVal where
  | fin (q : ℚ)
  | inf
  | ninf
  | nan
  | undef
deriving DecidableEq, Repr

namespace JVal

/-- Numeric coercion: `undefined` coerces to NaN in arithmetic contexts. -/
def toNum : JVal → JVal
  | undef => nan
  | v => v

end JVal

/-- JS unary minus. -/
def jneg (a : JVal) : JVal :=
  match a.toNum with
  | .fin q => .fin (qneg q)
  | .inf => .ninf
  | .ninf => .inf
  | _ => .nan

/-- JS addition (exact on finite values, IEEE rules on specials). -/
def jadd (a b : JVal) : JVal :=
  match a.toNum, b.toNum with
  | .fin x, .fin y => .fin (qadd x y)
  | .fin _, .inf => .inf
  | .fin _, .ninf => .ninf
  | .inf, .fin _ => .inf
  | .ninf, .fin _ => .ninf
  | .inf, .inf => .inf
  | .ninf, .ninf => .ninf
  | _, _ => .nan

/-- JS subtraction. -/
def jsub (a b : JVal) : JVal :=
  match a.toNum, b.toNum with
  | .fin x, .fin y => .fin (qsub x y)
  | .fin _, .inf => .ninf
  | .fin _, .ninf => .inf
  | .inf, .fin _ => .inf
  | .ninf, .fin _ => .ninf
  | .inf, .ninf => .inf
  | .ninf, .inf => .ninf
  | _, _ => .nan

/-- JS multiplication (exact on finite values, IEEE rules on specials). -/
def jmul (a b : JVal) : JVal :=
  match a.toNum, b.toNum with
  | .fin x, .fin y => .fin (qmul x y)
  | .fin x, .inf => if 0 < x then .inf else if x < 0 then .ninf else .nan
  | .fin x, .ninf => if 0 < x then .ninf else if x < 0 then .inf else .nan
  | .inf, .fin y => if 0 < y then .inf else if y < 0 then .ninf else .nan
  | .ninf, .fin y => if 0 < y then .ninf else if y < 0 then .inf else .nan
  | .inf, .inf => .inf
  | .inf, .ninf => .ninf
  | .ninf, .inf => .ninf
  | .ninf, .ninf => .inf
  | _, _ => .nan

/-- JS division (signed zero is idealised to `+0`). -/
def jdiv (a b : JVal) : JVal :=
  match a.toNum, b.toNum with
  | .fin x, .fin y =>
      if y = 0 then (if x = 0 then .nan else if 0 < x then .inf else .ninf)
      else .fin (qdiv x y)
  | .fin _, .inf => .fin 0
  | .fin _, .ninf => .fin 0
  | .inf, .fin y => if y < 0 then .ninf else .inf
  | .ninf, .fin y => if y < 0 then .inf else .ninf
  | _, _ => .nan

/-- JS `Math.abs`. -/
def jabs (a : JVal) : JVal :=
  match a.toNum with
  | .fin q => .fin (if q < 0 then qneg q else q)
  | .inf => .inf
  | .ninf => .inf
  | _ => .nan

/-- JS strict comparison `<` (false whenever NaN or undefined is involved). -/
def jlt (a b : JVal) : Bool :=
  match a.toNum, b.toNum with
  | .fin x, .fin y => decide (x < y)
  | .fin _, .inf => true
  | .fin _, .ninf => false
  | .inf, .fin _ => false
  | .ninf, .fin _ => true
  | .ninf, .inf => true
  | .inf, .ninf => false
  | .inf, .inf => false
  | .ninf, .ninf => false
  | _, _ => false

/-- JS comparison `<=` (false whenever NaN or undefined is involved). -/
def jle (a b : JVal) : Bool :=
  match a.toNum, b.toNum with
  | .fin x, .fin y => decide (x ≤ y)
  | .fin _, .inf => true
  | .fin _, .ninf => false
  | .inf, .fin _ => false
  | .ninf, .fin _ => true
  | .ninf, .inf => true
  | .inf, .ninf => false
  | .inf, .inf => true
  | .ninf, .ninf => true
  | _, _ => false

/-- JS `Number.isFinite`. -/
def isFin : JVal → Bool
  | .fin _ => true
  | _ => false

/-- Rational square root helper: exact whenever numerator and
denominator are perfect squares (the only case the concrete scenarios
exercise); otherwise a floor-based approximation. It is zero exactly
on zero and positive on positive rationals, which is all the general
navigation-graph theorems rely on. -/
def ratSqrt (q : ℚ) : ℚ := mkRat (intSqrt q.num.toNat) (intSqrt q.den)

/-- JS `Math.sqrt`. -/
def jsqrt (a : JVal) : JVal :=
  match a.toNum with
  | .fin q => if q < 0 then .nan else .fin (ratSqrt q)
  | .inf => .inf
  | _ => .nan

/-- JS `Math.hypot` on three arguments: infinity dominates NaN, NaN
dominates finite values, and the finite case is the Euclidean norm. -/
def jhypot3 (a b c : JVal) : JVal :=
  match a.toNum, b.toNum, c.toNum with
  | .fin x, .fin y, .fin z => .fin (ratSqrt (qadd (qadd (qmul x x) (qmul y y)) (qmul z z)))
  | ax, bx, cx =>
      if ax = .inf ∨ ax = .ninf ∨ bx = .inf ∨ bx = .ninf ∨ cx = .inf ∨ cx = .ninf then .inf
      else .nan

/-- The JS nullish coalescing `?? 0` applied to an array read. -/
def coalesce0 : JVal → JVal
  | .undef => .fin 0
  | v => v

/-- The JS nullish coalescing `?? 1` applied to an array read. -/
def coalesce1 : JVal → JVal
  | .undef => .fin 1
  | v => v

/-- Read entry `(r, c)` of a JS `number[][]`; missing entries read as
`undefined`. -/
def jget2 (m : List (List JVal)) (r c : Nat) : JVal :=
  (m.getD r []).getD c JVal.undef

/-- A triple of JS numbers (`[number, number, number]` in the source). -/
structure Vec3 where
  x : JVal
  y : JVal
  z : JVal
deriving DecidableEq, Repr

/-- Index access into a JS 3-tuple; out-of-range reads give `undefined`. -/
def Vec3.get : Vec3 → Nat → JVal
  | v, 0 => v.x
  | v, 1 => v.y
  | v, 2 => v.z
  | _, _ => JVal.undef

/-- Embedding of `matrixTranspose` from `useSceneData.ts`: the output is a
`cols × rows` grid (`cols` read from the first row) whose `(c, r)` entry is
`matrix[r][c]`, reading as `undefined` where a ragged row is short. -/
def matrixTranspose (matrix : List (List JVal)) : List (List JVal) :=
  (List.range (matrix.headD []).length).map (fun c =>
    (List.range matrix.length).map (fun r => jget2 matrix r c))

/-- Accumulator for the `row.reduce((sum, value, idx) => sum + value * vector[idx], 0)`
call inside `multiplyMatrixVector`. -/
def dotRowAux (vector : List JVal) : Nat → List JVal → JVal → JVal
  | _, [], sum => sum
  | idx, value :: rest, sum =>
      dotRowAux vector (idx + 1) rest (jadd sum (jmul value (vector.getD idx JVal.undef)))

/-- Embedding of `multiplyMatrixVector` from `useSceneData.ts`. -/
def multiplyMatrixVector (matrix : List (List JVal)) (vector : List JVal) : List JVal :=
  matrix.map (fun row => dotRowAux vector 0 row (JVal.fin 0))

/-- Result record of `decomposeExtrinsicsW2C`. -/
structure DecomposedExtrinsics where
  rotationW2C : List (List JVal)
  translationW2C : Vec3
  extrinsicsW2C : List (List JVal)
  rotationC2W : List (List JVal)
  positionWorld : Vec3
  extrinsicsC2W : List (List JVal)
deriving DecidableEq, Repr

/-- Embedding of `decomposeExtrinsicsW2C` from `useSceneData.ts`:
`matrix[row]?.[col] ?? 0` reads become `coalesce0 (jget2 ...)`. -/
def decomposeExtrinsicsW2C (matrix : List (List JVal)) : DecomposedExtrinsics :=
  let rotationW2C := (List.range 3).map (fun row =>
    [coalesce0 (jget2 matrix row 0), coalesce0 (jget2 matrix row 1),
     coalesce0 (jget2 matrix row 2)])
  let translationW2C : Vec3 :=
    ⟨coalesce0 (jget2 matrix 0 3), coalesce0 (jget2 matrix 1 3), coalesce0 (jget2 matrix 2 3)⟩
  let rotationC2W := matrixTranspose rotationW2C
  let posList := rotationC2W.map (fun row =>
    jneg (jadd (jadd (jmul (row.getD 0 JVal.undef) translationW2C.x)
                     (jmul (row.getD 1 JVal.undef) translationW2C.y))
               (jmul (row.getD 2 JVal.undef) translationW2C.z)))
  let positionWorld : Vec3 :=
    ⟨posList.getD 0 JVal.undef, posList.getD 1 JVal.undef, posList.getD 2 JVal.undef⟩
  let extrinsicsC2W := rotationC2W.enum.map (fun p => p.2 ++ [coalesce0 (positionWorld.get p.1)])
  let extrinsicsW2C := rotationW2C.enum.map (fun p => p.2 ++ [coalesce0 (translationW2C.get p.1)])
  ⟨rotationW2C, translationW2C, extrinsicsW2C, rotationC2W, positionWorld, extrinsicsC2W⟩

/-- Embedding of `sanitizeIntrinsics` from `useSceneData.ts`: the numeric
content is a row-by-row copy of `K` (the function only logs warnings). -/
def sanitizeIntrinsics (matrix : List (List JVal)) : List (List JVal) :=
  matrix.map (fun row => row)

/-- Result of a successful projection (`{u, v, z}` in the source). -/
structure ImageCoordinates where
  u : JVal
  v : JVal
  z : JVal
deriving DecidableEq, Repr

/-- Embedding of `projectWorldPointToImage` from `useSceneData.ts`. -/
def projectWorldPointToImage (extrinsics intrinsics : List (List JVal))
    (worldPoint : Vec3) : Option ImageCoordinates :=
  if extrinsics.length < 3 ∨ intrinsics.length < 3 then none
  else
    let rotation := extrinsics.map (fun row => row.take 3)
    let translation := extrinsics.map (fun row => row.getD 3 JVal.undef |> coalesce0)
    let cameraX := jadd (jadd (jadd (jmul (coalesce0 (jget2 rotation 0 0)) worldPoint.x)
                                    (jmul (coalesce0 (jget2 rotation 0 1)) worldPoint.y))
                              (jmul (coalesce0 (jget2 rotation 0 2)) worldPoint.z))
                        (translation.getD 0 JVal.undef)
    let cameraY := jadd (jadd (jadd (jmul (coalesce0 (jget2 rotation 1 0)) worldPoint.x)
                                    (jmul (coalesce0 (jget2 rotation 1 1)) worldPoint.y))
                              (jmul (coalesce0 (jget2 rotation 1 2)) worldPoint.z))
                        (translation.getD 1 JVal.undef)
    let cameraZ := jadd (jadd (jadd (jmul (coalesce0 (jget2 rotation 2 0)) worldPoint.x)
                                    (jmul (coalesce0 (jget2 rotation 2 1)) worldPoint.y))
                              (jmul (coalesce0 (jget2 rotation 2 2)) worldPoint.z))
                        (translation.getD 2 JVal.undef)
    if !(isFin cameraZ) || jle cameraZ (JVal.fin 0) then none
    else
      let k00 := coalesce0 (jget2 intrinsics 0 0)
      let k01 := coalesce0 (jget2 intrinsics 0 1)
      let k02 := coalesce0 (jget2 intrinsics 0 2)
      let k10 := coalesce0 (jget2 intrinsics 1 0)
      let k11 := coalesce0 (jget2 intrinsics 1 1)
      let k12 := coalesce0 (jget2 intrinsics 1 2)
      let k20 := coalesce0 (jget2 intrinsics 2 0)
      let k21 := coalesce0 (jget2 intrinsics 2 1)
      let k22 := coalesce1 (jget2 intrinsics 2 2)
      let projectedX := jadd (jadd (jmul k00 cameraX) (jmul k01 cameraY)) (jmul k02 cameraZ)
      let projectedY := jadd (jadd (jmul k10 cameraX) (jmul k11 cameraY)) (jmul k12 cameraZ)
      let projectedW := jadd (jadd (jmul k20 cameraX) (jmul k21 cameraY)) (jmul k22 cameraZ)
      if !(isFin projectedW) || (projectedW == JVal.fin 0) then none
      else
        let u := jdiv projectedX projectedW
        let v := jdiv projectedY projectedW
        if !(isFin u) || !(isFin v) then none
        else some ⟨u, v, cameraZ⟩

/-- A well-formed `rows × cols` JS number matrix: correct dimensions and no
`undefined` entries. -/
def IsMat (m : List (List JVal)) (rows cols : Nat) : Prop :=
  m.length = rows ∧ (∀ row ∈ m, row.length = cols) ∧ ∀ row ∈ m, ∀ v ∈ row, v ≠ JVal.undef

instance (m : List (List JVal)) (rows cols : Nat) : Decidable (IsMat m rows cols) := by
  unfold IsMat; infer_instance

theorem jmul_ne_undef (a b : JVal) : jmul a b ≠ JVal.undef := by
  cases a <;> cases b <;> simp [jmul, JVal.toNum] <;> split_ifs <;> simp

theorem jadd_zero_left (v : JVal) (h : v ≠ JVal.undef) : jadd (JVal.fin 0) v = v := by
  cases v <;> simp_all [jadd, JVal.toNum, qadd_eq]

theorem jadd_zero_jmul (a b : JVal) : jadd (JVal.fin 0) (jmul a b) = jmul a b :=
  jadd_zero_left _ (jmul_ne_undef a b)

theorem coalesce0_ne {v : JVal} (h : v ≠ JVal.undef) : coalesce0 v = v := by
  cases v <;> simp_all [coalesce0]

theorem length_eq_four {α : Type _} {l : List α} (h : l.length = 4) :
    ∃ a b c d, l = [a, b, c, d] := by
  rcases l with _ | ⟨a, l⟩
  · simp at h
  rcases l with _ | ⟨b, l⟩
  · simp at h
  rcases l with _ | ⟨c, l⟩
  · simp at h
  rcases l with _ | ⟨d, l⟩
  · simp at h
  rcases l with _ | ⟨e, l⟩
  · exact ⟨a, b, c, d, rfl⟩
  · simp at h

theorem length_eq_three {α : Type _} {l : List α} (h : l.length = 3) :
    ∃ a b c, l = [a, b, c] := by
  rcases l with _ | ⟨a, l⟩
  · simp at h
  rcases l with _ | ⟨b, l⟩
  · simp at h
  rcases l with _ | ⟨c, l⟩
  · simp at h
  rcases l with _ | ⟨d, l⟩
  · exact ⟨a, b, c, rfl⟩
  · simp at h

/-- C2: for every 3x4 world-to-camera extrinsics record `[R | t]`, the
decomposed frame satisfies `rotationCameraToWorld = transpose(R)` and
`positionWorld = -(transpose(R) · t)` entrywise, as exact equations over
the embedded arithmetic (the matrix product on the right is the source's
own `multiplyMatrixVector` applied to the source's `matrixTranspose` of
the rotation block). -/
theorem C2_decompose_extrinsics (m : List (List JVal)) (hm : IsMat m 3 4) :
    (∀ i j, i < 3 → j < 3 →
      jget2 (decomposeExtrinsicsW2C m).rotationC2W i j = jget2 m j i) ∧
    [(decomposeExtrinsicsW2C m).positionWorld.x,
     (decomposeExtrinsicsW2C m).positionWorld.y,
     (decomposeExtrinsicsW2C m).positionWorld.z] =
      (multiplyMatrixVector
        (matrixTranspose ((List.range 3).map (fun r =>
          (List.range 3).map (fun c => jget2 m r c))))
        [jget2 m 0 3, jget2 m 1 3, jget2 m 2 3]).map jneg := by
  obtain ⟨h3, h4, hu⟩ := hm
  obtain ⟨r0, r1, r2, rfl⟩ := length_eq_three h3
  obtain ⟨a00, a01, a02, a03, rfl⟩ := length_eq_four (h4 r0 (by simp))
  obtain ⟨a10, a11, a12, a13, rfl⟩ := length_eq_four (h4 r1 (by simp))
  obtain ⟨a20, a21, a22, a23, rfl⟩ := length_eq_four (h4 r2 (by simp))
  simp only [List.forall_mem_cons] at hu
  obtain ⟨⟨u00, u01, u02, u03, -⟩, ⟨u10, u11, u12, u13, -⟩, ⟨u20, u21, u22, u23, -⟩, -⟩ := hu
  constructor
  · intro i j hi hj
    interval_cases i <;> interval_cases j <;>
      simp [decomposeExtrinsicsW2C, matrixTranspose, jget2, List.range_succ,
        coalesce0_ne u00, coalesce0_ne u01, coalesce0_ne u02,
        coalesce0_ne u10, coalesce0_ne u11, coalesce0_ne u12,
        coalesce0_ne u20, coalesce0_ne u21, coalesce0_ne u22]
  · simp [decomposeExtrinsicsW2C, matrixTranspose, multiplyMatrixVector, dotRowAux,
      jget2, List.range_succ, jadd_zero_jmul,
      coalesce0_ne u00, coalesce0_ne u01, coalesce0_ne u02, coalesce0_ne u03,
      coalesce0_ne u10, coalesce0_ne u11, coalesce0_ne u12, coalesce0_ne u13,
      coalesce0_ne u20, coalesce0_ne u21, coalesce0_ne u22, coalesce0_ne u23]

/-- C2 witness: the theorem applied to a concrete 3x4 extrinsics record. -/
theorem C2_decompose_extrinsics_witness :
    IsMat [[JVal.fin 1, JVal.fin 0, JVal.fin 0, JVal.fin 2],
           [JVal.fin 0, JVal.fin 0, JVal.fin (-1), JVal.fin 3],
           [JVal.fin 0, JVal.fin 1, JVal.fin 0, JVal.fin 4]] 3 4 ∧
    ((∀ i j, i < 3 → j < 3 →
      jget2 (decomposeExtrinsicsW2C
        [[JVal.fin 1, JVal.fin 0, JVal.fin 0, JVal.fin 2],
         [JVal.fin 0, JVal.fin 0, JVal.fin (-1), JVal.fin 3],
         [JVal.fin 0, JVal.fin 1, JVal.fin 0, JVal.fin 4]]).rotationC2W i j =
      jget2 [[JVal.fin 1, JVal.fin 0, JVal.fin 0, JVal.fin 2],
             [JVal.fin 0, JVal.fin 0, JVal.fin (-1), JVal.fin 3],
             [JVal.fin 0, JVal.fin 1, JVal.fin 0, JVal.fin 4]] j i) ∧
    [(decomposeExtrinsicsW2C
        [[JVal.fin 1, JVal.fin 0, JVal.fin 0, JVal.fin 2],
         [JVal.fin 0, JVal.fin 0, JVal.fin (-1), JVal.fin 3],
         [JVal.fin 0, JVal.fin 1, JVal.fin 0, JVal.fin 4]]).positionWorld.x,
     (decomposeExtrinsicsW2C
        [[JVal.fin 1, JVal.fin 0, JVal.fin 0, JVal.fin 2],
         [JVal.fin 0, JVal.fin 0, JVal.fin (-1), JVal.fin 3],
         [JVal.fin 0, JVal.fin 1, JVal.fin 0, JVal.fin 4]]).positionWorld.y,
     (decomposeExtrinsicsW2C
        [[JVal.fin 1, JVal.fin 0, JVal.fin 0, JVal.fin 2],
         [JVal.fin 0, JVal.fin 0, JVal.fin (-1), JVal.fin 3],
         [JVal.fin 0, JVal.fin 1, JVal.fin 0, JVal.fin 4]]).positionWorld.z] =
      (multiplyMatrixVector
        (matrixTranspose ((List.range 3).map (fun r =>
          (List.range 3).map (fun c => jget2
            [[JVal.fin 1, JVal.fin 0, JVal.fin 0, JVal.fin 2],
             [JVal.fin 0, JVal.fin 0, JVal.fin (-1), JVal.fin 3],
             [JVal.fin 0, JVal.fin 1, JVal.fin 0, JVal.fin 4]] r c))))
        [jget2 [[JVal.fin 1, JVal.fin 0, JVal.fin 0, JVal.fin 2],
                [JVal.fin 0, JVal.fin 0, JVal.fin (-1), JVal.fin 3],
                [JVal.fin 0, JVal.fin 1, JVal.fin 0, JVal.fin 4]] 0 3,
         jget2 [[JVal.fin 1, JVal.fin 0, JVal.fin 0, JVal.fin 2],
                [JVal.fin 0, JVal.fin 0, JVal.fin (-1), JVal.fin 3],
                [JVal.fin 0, JVal.fin 1, JVal.fin 0, JVal.fin 4]] 1 3,
         jget2 [[JVal.fin 1, JVal.fin 0, JVal.fin 0, JVal.fin 2],
                [JVal.fin 0, JVal.fin 0, JVal.fin (-1), JVal.fin 3],
                [JVal.fin 0, JVal.fin 1, JVal.fin 0, JVal.fin 4]] 2 3]).map jneg) :=
  ⟨by decide, C2_decompose_extrinsics _ (by decide)⟩

theorem coalesce1_ne {v : JVal} (h : v ≠ JVal.undef) : coalesce1 v = v := by
  cases v <;> simp_all [coalesce1]

/-- Claim-side formula for C3: the camera-space point `R · worldPoint + t`
read off a 3x4 extrinsics matrix. -/
def specCamPoint (E : List (List JVal)) (p : Vec3) : Vec3 :=
  ⟨jadd (jadd (jadd (jmul (jget2 E 0 0) p.x) (jmul (jget2 E 0 1) p.y))
              (jmul (jget2 E 0 2) p.z)) (jget2 E 0 3),
   jadd (jadd (jadd (jmul (jget2 E 1 0) p.x) (jmul (jget2 E 1 1) p.y))
              (jmul (jget2 E 1 2) p.z)) (jget2 E 1 3),
   jadd (jadd (jadd (jmul (jget2 E 2 0) p.x) (jmul (jget2 E 2 1) p.y))
              (jmul (jget2 E 2 2) p.z)) (jget2 E 2 3)⟩

/-- Claim-side formula for C3: the homogeneous coordinates `K · cameraPoint`. -/
def specHomog (K : List (List JVal)) (c : Vec3) : Vec3 :=
  ⟨jadd (jadd (jmul (jget2 K 0 0) c.x) (jmul (jget2 K 0 1) c.y)) (jmul (jget2 K 0 2) c.z),
   jadd (jadd (jmul (jget2 K 1 0) c.x) (jmul (jget2 K 1 1) c.y)) (jmul (jget2 K 1 2) c.z),
   jadd (jadd (jmul (jget2 K 2 0) c.x) (jmul (jget2 K 2 1) c.y)) (jmul (jget2 K 2 2) c.z)⟩

/-- C3: for every 3x4 extrinsics matrix, 3x3 intrinsics matrix K and world
point, `projectWorldPointToImage` returns none exactly when the camera-space
depth z is at most 0 or non-finite, or the homogeneous coordinate
w = row2(K)·cameraPoint is zero or non-finite, or u = x/w or v = y/w is
non-finite; otherwise it returns the record with u = x/w, v = y/w and
depth z. -/
theorem C3_project_characterisation (E K : List (List JVal)) (p : Vec3)
    (hE : IsMat E 3 4) (hK : IsMat K 3 3) :
    (projectWorldPointToImage E K p = none ↔
      (jle (specCamPoint E p).z (JVal.fin 0) = true ∨ isFin (specCamPoint E p).z = false) ∨
      ((specHomog K (specCamPoint E p)).z = JVal.fin 0 ∨
        isFin (specHomog K (specCamPoint E p)).z = false) ∨
      isFin (jdiv (specHomog K (specCamPoint E p)).x
        (specHomog K (specCamPoint E p)).z) = false ∨
      isFin (jdiv (specHomog K (specCamPoint E p)).y
        (specHomog K (specCamPoint E p)).z) = false) ∧
    (projectWorldPointToImage E K p ≠ none →
      projectWorldPointToImage E K p = some
        ⟨jdiv (specHomog K (specCamPoint E p)).x (specHomog K (specCamPoint E p)).z,
         jdiv (specHomog K (specCamPoint E p)).y (specHomog K (specCamPoint E p)).z,
         (specCamPoint E p).z⟩) := by
  obtain ⟨hE3, hE4, hEu⟩ := hE
  obtain ⟨e0, e1, e2, rfl⟩ := length_eq_three hE3
  obtain ⟨a00, a01, a02, a03, rfl⟩ := length_eq_four (hE4 e0 (by simp))
  obtain ⟨a10, a11, a12, a13, rfl⟩ := length_eq_four (hE4 e1 (by simp))
  obtain ⟨a20, a21, a22, a23, rfl⟩ := length_eq_four (hE4 e2 (by simp))
  obtain ⟨hK3, hK4, hKu⟩ := hK
  obtain ⟨m0, m1, m2, rfl⟩ := length_eq_three hK3
  obtain ⟨k00, k01, k02, rfl⟩ := length_eq_three (hK4 m0 (by simp))
  obtain ⟨k10, k11, k12, rfl⟩ := length_eq_three (hK4 m1 (by simp))
  obtain ⟨k20, k21, k22, rfl⟩ := length_eq_three (hK4 m2 (by simp))
  simp only [List.forall_mem_cons] at hEu hKu
  obtain ⟨⟨u00, u01, u02, u03, -⟩, ⟨u10, u11, u12, u13, -⟩, ⟨u20, u21, u22, u23, -⟩, -⟩ := hEu
  obtain ⟨⟨w00, w01, w02, -⟩, ⟨w10, w11, w12, -⟩, ⟨w20, w21, w22, -⟩, -⟩ := hKu
  simp only [projectWorldPointToImage, specCamPoint, specHomog, jget2]
  simp [coalesce0_ne u00, coalesce0_ne u01, coalesce0_ne u02, coalesce0_ne u03,
    coalesce0_ne u10, coalesce0_ne u11, coalesce0_ne u12, coalesce0_ne u13,
    coalesce0_ne u20, coalesce0_ne u21, coalesce0_ne u22, coalesce0_ne u23,
    coalesce0_ne w00, coalesce0_ne w01, coalesce0_ne w02,
    coalesce0_ne w10, coalesce0_ne w11, coalesce0_ne w12,
    coalesce0_ne w20, coalesce0_ne w21, coalesce1_ne w22]
  simp only [Bool.eq_false_iff]
  tauto

/-- Concrete extrinsics for the C3 witness: identity rotation, translation
`[0, 0, 5]` (the projection scenario of the specification). -/
def projE0 : List (List JVal) :=
  [[JVal.fin 1, JVal.fin 0, JVal.fin 0, JVal.fin 0],
   [JVal.fin 0, JVal.fin 1, JVal.fin 0, JVal.fin 0],
   [JVal.fin 0, JVal.fin 0, JVal.fin 1, JVal.fin 5]]

/-- Concrete intrinsics for the C3 witness: `fx = fy = 100`, `cx = cy = 50`. -/
def projK0 : List (List JVal) :=
  [[JVal.fin 100, JVal.fin 0, JVal.fin 50],
   [JVal.fin 0, JVal.fin 100, JVal.fin 50],
   [JVal.fin 0, JVal.fin 0, JVal.fin 1]]

/-- C3 witness: the characterisation applied to the specification's
projection scenario, which projects the world origin to the principal
point at depth 5. -/
theorem C3_project_characterisation_witness :
    IsMat projE0 3 4 ∧ IsMat projK0 3 3 ∧
    ((projectWorldPointToImage projE0 projK0 ⟨JVal.fin 0, JVal.fin 0, JVal.fin 0⟩ = none ↔
      (jle (specCamPoint projE0 ⟨JVal.fin 0, JVal.fin 0, JVal.fin 0⟩).z (JVal.fin 0) = true ∨
        isFin (specCamPoint projE0 ⟨JVal.fin 0, JVal.fin 0, JVal.fin 0⟩).z = false) ∨
      ((specHomog projK0 (specCamPoint projE0 ⟨JVal.fin 0, JVal.fin 0, JVal.fin 0⟩)).z =
          JVal.fin 0 ∨
        isFin (specHomog projK0
          (specCamPoint projE0 ⟨JVal.fin 0, JVal.fin 0, JVal.fin 0⟩)).z = false) ∨
      isFin (jdiv (specHomog projK0 (specCamPoint projE0 ⟨JVal.fin 0, JVal.fin 0, JVal.fin 0⟩)).x
        (specHomog projK0 (specCamPoint projE0 ⟨JVal.fin 0, JVal.fin 0, JVal.fin 0⟩)).z) =
        false ∨
      isFin (jdiv (specHomog projK0 (specCamPoint projE0 ⟨JVal.fin 0, JVal.fin 0, JVal.fin 0⟩)).y
        (specHomog projK0 (specCamPoint projE0 ⟨JVal.fin 0, JVal.fin 0, JVal.fin 0⟩)).z) =
        false) ∧
    (projectWorldPointToImage projE0 projK0 ⟨JVal.fin 0, JVal.fin 0, JVal.fin 0⟩ ≠ none →
      projectWorldPointToImage projE0 projK0 ⟨JVal.fin 0, JVal.fin 0, JVal.fin 0⟩ = some
        ⟨jdiv (specHomog projK0 (specCamPoint projE0 ⟨JVal.fin 0, JVal.fin 0, JVal.fin 0⟩)).x
           (specHomog projK0 (specCamPoint projE0 ⟨JVal.fin 0, JVal.fin 0, JVal.fin 0⟩)).z,
         jdiv (specHomog projK0 (specCamPoint projE0 ⟨JVal.fin 0, JVal.fin 0, JVal.fin 0⟩)).y
           (specHomog projK0 (specCamPoint projE0 ⟨JVal.fin 0, JVal.fin 0, JVal.fin 0⟩)).z,
         (specCamPoint projE0 ⟨JVal.fin 0, JVal.fin 0, JVal.fin 0⟩).z⟩)) :=
  ⟨by decide, by decide,
    C3_project_characterisation projE0 projK0 _ (by decide) (by decide)⟩

/-- The characters matched by the JS regex class `\s` and by `String.trim`
that can occur in a latin1-decoded header (space, tab, LF, VT, FF, CR,
and NBSP `0xA0`). -/
def isJsSpace (c : Char) : Bool :=
  c = Char.ofNat 32 || c = Char.ofNat 9 || c = Char.ofNat 10 || c = Char.ofNat 11 ||
  c = Char.ofNat 12 || c = Char.ofNat 13 || c = Char.ofNat 160

/-- JS `String.prototype.trim`. -/
def jsTrim (s : List Char) : List Char :=
  ((s.dropWhile (fun c => isJsSpace c)).reverse.dropWhile (fun c => isJsSpace c)).reverse

/-- `TextDecoder('latin1')`: one character per byte. -/
def latin1 (bs : List Nat) : List Char := bs.map Char.ofNat

/-- The single-quote character (written by code point to keep header
literals readable as data). -/
def quoteC : Char := Char.ofNat 39

/-- Strip a literal prefix, returning the rest of the input on success. -/
def stripLit (lit s : List Char) : Option (List Char) :=
  if lit.isPrefixOf s then some (s.drop lit.length) else none

/-- Run a position matcher at every suffix, leftmost first (the scan
performed by `String.prototype.match` with a non-anchored regex). -/
def scanMatch {α : Type} (f : List Char → Option α) : List Char → Option α
  | [] => f []
  | c :: rest =>
    match f (c :: rest) with
    | some r => some r
    | none => scanMatch f rest

/-- Matcher for the regex `'descr'\s*:\s*'([^']+)'` at one position;
returns the capture group. -/
def matchDescrAt (s : List Char) : Option (List Char) :=
  match stripLit (quoteC :: (("descr".toList) ++ [quoteC])) s with
  | none => none
  | some s1 =>
    match s1.dropWhile (fun c => isJsSpace c) with
    | ':' :: s3 =>
      match s3.dropWhile (fun c => isJsSpace c) with
      | c :: s5 =>
        if c = quoteC then
          let cap := s5.takeWhile (fun d => d ≠ quoteC)
          if cap.isEmpty then none
          else
            match s5.drop cap.length with
            | d :: _ => if d = quoteC then some cap else none
            | [] => none
        else none
      | [] => none
    | _ => none

/-- Matcher for the regex `'fortran_order'\s*:\s*(True|False)` at one
position. -/
def matchFortranAt (s : List Char) : Option Bool :=
  match stripLit (quoteC :: (("fortran_order".toList) ++ [quoteC])) s with
  | none => none
  | some s1 =>
    match s1.dropWhile (fun c => isJsSpace c) with
    | ':' :: s3 =>
      let s4 := s3.dropWhile (fun c => isJsSpace c)
      if ("True".toList).isPrefixOf s4 then some true
      else if ("False".toList).isPrefixOf s4 then some false
      else none
    | _ => none

/-- Matcher for the regex `'shape'\s*:\s*\(([^)]*)\)` at one position;
returns the capture group. -/
def matchShapeAt (s : List Char) : Option (List Char) :=
  match stripLit (quoteC :: (("shape".toList) ++ [quoteC])) s with
  | none => none
  | some s1 =>
    match s1.dropWhile (fun c => isJsSpace c) with
    | ':' :: s3 =>
      match s3.dropWhile (fun c => isJsSpace c) with
      | '(' :: s5 =>
        let cap := s5.takeWhile (fun d => d ≠ ')')
        match s5.drop cap.length with
        | d :: _ => if d = ')' then some cap else none
        | [] => none
      | _ => none
    | _ => none

/-- JS `String.prototype.includes`. -/
def containsSub (s pat : List Char) : Bool :=
  (scanMatch (fun t => if pat.isPrefixOf t then some () else none) s).isSome

/-- Value of a digit string. -/
def digitsVal (ds : List Char) : Nat :=
  ds.foldl (fun acc c => acc * 10 + (c.toNat - 48)) 0

/-- JS `Number.parseInt(value, 10)`: optional sign, then as many decimal
digits as possible; no digits gives NaN. -/
def parseIntJs (s : List Char) : JVal :=
  let s1 := s.dropWhile (fun c => isJsSpace c)
  match s1 with
  | [] => JVal.nan
  | c :: rest =>
    if c = '-' then
      let ds := rest.takeWhile (fun d => d.isDigit)
      if ds.isEmpty then JVal.nan else JVal.fin (qneg (digitsVal ds : ℚ))
    else if c = '+' then
      let ds := rest.takeWhile (fun d => d.isDigit)
      if ds.isEmpty then JVal.nan else JVal.fin ((digitsVal ds : ℚ))
    else
      let ds := s1.takeWhile (fun d => d.isDigit)
      if ds.isEmpty then JVal.nan else JVal.fin ((digitsVal ds : ℚ))

/-- The error conditions of `npy.ts`. `rangeError` stands for the
`RangeError` a typed-array or `DataView` construction throws when its
range exceeds the buffer (the JS runtime raises it before the decoder's
own checks run); the remaining constructors stand for the decoder's own
`throw new Error(...)` sites. -/
inductive NpyError where
  | rangeError
  | invalidSignature
  | unsupportedVersion
  | headerParse
  | fortranOrder
  | unsupportedDtype
deriving DecidableEq, Repr

/-- The fixed 6-byte magic prefix `\x93NUMPY`. -/
def MAGIC : List Nat := [0x93, 0x4e, 0x55, 0x4d, 0x50, 0x59]

/-- Result of `readHeader` in `npy.ts`. -/
structure NpyHeaderInfo where
  header : List Char
  offset : Nat
  major : Nat
  minor : Nat
deriving DecidableEq, Repr

/-- Embedding of `readHeader` from `npy.ts`, including the implicit
`RangeError`s of `new Uint8Array(buffer, off, len)` and
`DataView.getUint8/16/32` when the requested range exceeds the buffer. -/
def readHeader (buffer : List Nat) : Except NpyError NpyHeaderInfo :=
  if buffer.length < 6 then .error .rangeError
  else if buffer.take 6 ≠ MAGIC then .error .invalidSignature
  else if buffer.length < 7 then .error .rangeError
  else if buffer.length < 8 then .error .rangeError
  else if buffer.getD 6 0 = 1 then
    if buffer.length < 10 then .error .rangeError
    else if buffer.length < 10 + (buffer.getD 8 0 + 256 * buffer.getD 9 0) then
      .error .rangeError
    else
      .ok ⟨jsTrim (latin1 ((buffer.drop 10).take (buffer.getD 8 0 + 256 * buffer.getD 9 0))),
           10 + (buffer.getD 8 0 + 256 * buffer.getD 9 0), buffer.getD 6 0, buffer.getD 7 0⟩
  else if buffer.getD 6 0 = 2 then
    if buffer.length < 12 then .error .rangeError
    else if buffer.length < 12 + (buffer.getD 8 0 + 256 * buffer.getD 9 0 +
        65536 * buffer.getD 10 0 + 16777216 * buffer.getD 11 0) then
      .error .rangeError
    else
      .ok ⟨jsTrim (latin1 ((buffer.drop 12).take (buffer.getD 8 0 + 256 * buffer.getD 9 0 +
             65536 * buffer.getD 10 0 + 16777216 * buffer.getD 11 0))),
           12 + (buffer.getD 8 0 + 256 * buffer.getD 9 0 +
             65536 * buffer.getD 10 0 + 16777216 * buffer.getD 11 0),
           buffer.getD 6 0, buffer.getD 7 0⟩
  else .error .unsupportedVersion

/-- Result of `parseHeader` in `npy.ts`. -/
structure ParsedNpyHeader where
  descr : List Char
  fortranOrder : Bool
  shape : List JVal
deriving DecidableEq, Repr

/-- Embedding of `parseHeader` from `npy.ts`: three targeted regex
extractions, a comma split with trim and truthiness filter, decimal
parses, and the special case appending 1 to a 1-element shape when the
header contains the literal `(1,)`. -/
def parseHeader (header : List Char) : Except NpyError ParsedNpyHeader :=
  match scanMatch matchDescrAt header, scanMatch matchFortranAt header,
        scanMatch matchShapeAt header with
  | some descr, some fortranOrder, some shapeCap =>
    let parts := (shapeCap.splitOn ',').map jsTrim
    let shapeValues := (parts.filter (fun p => !p.isEmpty)).map parseIntJs
    let shapeValues :=
      if shapeValues.length = 1 && containsSub header (("(1,)").toList) then
        shapeValues ++ [JVal.fin 1]
      else shapeValues
    .ok ⟨descr, fortranOrder, shapeValues⟩
  | _, _, _ => .error .headerParse

/-- Group payload bytes into elements of `k` bytes each (the byte-level
view of the `Float32Array`/`Float64Array` the decoder constructs over
the bytes following the header; the numeric decoding of IEEE bit
patterns is irrelevant to the properties checked here). -/
def chunkBytesAux (k : Nat) : Nat → List Nat → List (List Nat)
  | 0, _ => []
  | _, [] => []
  | fuel + 1, x :: rest => (x :: rest).take k :: chunkBytesAux k fuel ((x :: rest).drop k)

/-- Entry point of the chunking view: for a positive element size the
fuel `l.length` is an upper bound on the number of chunks. -/
def chunkBytes (k : Nat) (l : List Nat) : List (List Nat) :=
  if k = 0 then [] else chunkBytesAux k l.length l

/-- Result of `parseNpy` in `npy.ts`; `data` is the element-chunked view
of the payload bytes. -/
structure NpyResultM where
  dtype : List Char
  fortranOrder : Bool
  shape : List JVal
  data : List (List Nat)
deriving DecidableEq, Repr

/-- Embedding of `parseNpy` from `npy.ts`. The typed-array constructors
`new Float32Array(buffer, offset)` / `new Float64Array(buffer, offset)`
throw a `RangeError` when `offset` is not element-aligned or the
remaining byte count is not a multiple of the element size; otherwise
they view all bytes from `offset` to the end. -/
def parseNpy (buffer : List Nat) : Except NpyError NpyResultM :=
  match readHeader buffer with
  | .error e => .error e
  | .ok info =>
    match parseHeader info.header with
    | .error e => .error e
    | .ok ph =>
      if ph.fortranOrder then .error .fortranOrder
      else if ph.descr = ("<f4").toList ∨ ph.descr = ("|f4").toList ∨
              ph.descr = ("<f").toList then
        if info.offset % 4 ≠ 0 then .error .rangeError
        else if (buffer.length - info.offset) % 4 ≠ 0 then .error .rangeError
        else .ok ⟨ph.descr, ph.fortranOrder, ph.shape, chunkBytes 4 (buffer.drop info.offset)⟩
      else if ph.descr = ("<f8").toList ∨ ph.descr = ("|f8").toList then
        if info.offset % 8 ≠ 0 then .error .rangeError
        else if (buffer.length - info.offset) % 8 ≠ 0 then .error .rangeError
        else .ok ⟨ph.descr, ph.fortranOrder, ph.shape, chunkBytes 8 (buffer.drop info.offset)⟩
      else .error .unsupportedDtype

instance exceptDecEq {ε α : Type} [DecidableEq ε] [DecidableEq α] :
    DecidableEq (Except ε α) := fun a b =>
  match a, b with
  | .error e, .error f =>
    if h : e = f then isTrue (by rw [h]) else isFalse (fun hh => h (by injection hh))
  | .error _, .ok _ => isFalse (fun hh => Except.noConfusion hh)
  | .ok _, .error _ => isFalse (fun hh => Except.noConfusion hh)
  | .ok a, .ok b =>
    if h : a = b then isTrue (by rw [h]) else isFalse (fun hh => h (by injection hh))

/-- Element size in bytes associated to an accepted dtype descriptor. -/
def elemSizeOfDescr (descr : List Char) : Nat :=
  if descr = ("<f4").toList ∨ descr = ("|f4").toList ∨ descr = ("<f").toList then 4
  else if descr = ("<f8").toList ∨ descr = ("|f8").toList then 8
  else 0

/-- The byte offset of the payload, as determined by `readHeader`. -/
def npyDataOffset (buffer : List Nat) : Nat :=
  match readHeader buffer with
  | .ok info => info.offset
  | .error _ => 0

/-- Bytes of an ASCII string (latin1 encoding). -/
def strBytes (s : String) : List Nat := (s.toList).map Char.toNat

/-- A single-quote byte. -/
def q39b : List Nat := [39]

/-- The header text
`{'descr': '<f4', 'fortran_order': False, 'shape': (3, 4), }`
assembled from byte pieces (59 bytes). -/
def npyHeaderText : List Nat :=
  [123] ++ q39b ++ strBytes ("descr") ++ q39b ++ strBytes (": ") ++ q39b ++
  strBytes ("<f4") ++ q39b ++ strBytes (", ") ++ q39b ++ strBytes ("fortran_order") ++
  q39b ++ strBytes (": False, ") ++ q39b ++ strBytes ("shape") ++ q39b ++
  strBytes (": (3, 4), ") ++ [125]

/-- The header padded with spaces to 62 bytes, so that the payload
offset `10 + 62 = 72` is 4-byte aligned. -/
def npyHeader62 : List Nat := npyHeaderText ++ strBytes ("   ")

/-- The decoder scenario buffer: magic, version 1.0, little-endian header
length 62, the header declaring `<f4`, row-major, shape `(3, 4)`, and
exactly 48 payload bytes. -/
def npyScenario48 : List Nat := MAGIC ++ [1, 0, 62, 0] ++ npyHeader62 ++ List.replicate 48 0

/-- A buffer identical to the scenario one except that 52 payload bytes
follow the header declaring shape `(3, 4)`. -/
def npyBad52 : List Nat := MAGIC ++ [1, 0, 62, 0] ++ npyHeader62 ++ List.replicate 52 7

theorem chunkBytesAux_length_mul (k : Nat) (hk : k ≠ 0) :
    ∀ (fuel : Nat) (l : List Nat), l.length ≤ fuel → k ∣ l.length →
      (chunkBytesAux k fuel l).length * k = l.length := by
  intro fuel
  induction fuel with
  | zero =>
    intro l hl _
    cases l with
    | nil => simp [chunkBytesAux]
    | cons x rest => simp at hl
  | succ n ih =>
    intro l hl hd
    cases l with
    | nil => simp [chunkBytesAux]
    | cons x rest =>
      have hk1 : 1 ≤ k := Nat.one_le_iff_ne_zero.mpr hk
      have hkle : k ≤ (x :: rest).length := Nat.le_of_dvd (by simp) hd
      have hdl : ((x :: rest).drop k).length = (x :: rest).length - k := by
        simp [List.length_drop]
      have ihh := ih ((x :: rest).drop k)
        (by rw [hdl]; simp only [List.length_cons] at hl ⊢; omega)
        (by rw [hdl]; exact Nat.dvd_sub' hd dvd_rfl)
      show ((x :: rest).take k :: chunkBytesAux k n ((x :: rest).drop k)).length * k =
        (x :: rest).length
      rw [List.length_cons, Nat.succ_mul, ihh, hdl]
      omega

theorem chunkBytes_length_mul (k : Nat) (hk : k ≠ 0) (l : List Nat) (hd : k ∣ l.length) :
    (chunkBytes k l).length * k = l.length := by
  unfold chunkBytes
  rw [if_neg hk]
  exact chunkBytesAux_length_mul k hk l.length l le_rfl hd

theorem readHeader_offset_le {buffer : List Nat} {info : NpyHeaderInfo}
    (h : readHeader buffer = .ok info) : info.offset ≤ buffer.length := by
  unfold readHeader at h
  split_ifs at h
  all_goals injection h with h'
  all_goals (subst h'; dsimp only; omega)

set_option maxRecDepth 40000 in
/-- C4 counterexample: the decoder accepts a version-1 container whose
header declares shape (3, 4) but whose payload holds 52 bytes (13
float32 elements); the returned element count is 13, not the shape
product 12, so the universally quantified half of the claim is false. -/
theorem C4_counterexample :
    (parseNpy npyBad52).toOption.map (fun r => r.data.length) = some 13 ∧
    (parseNpy npyBad52).toOption.map NpyResultM.shape = some [JVal.fin 3, JVal.fin 4] ∧
    (13 : Nat) ≠ 3 * 4 := by
  refine ⟨?_, ?_, by decide⟩
  · decide
  · decide

set_option maxRecDepth 40000 in
/-- C4 amended: for every buffer the decoder accepts, the element count
of the returned flat view equals the payload byte count divided by the
element size (the decoder performs no validation against the declared
shape); in particular the version-1 container declaring dtype 32-bit
float, row-major, shape (3,4), followed by exactly 48 payload bytes,
decodes to shape [3,4] and a 12-element flat view. -/
theorem C4_amended :
    (∀ (buffer : List Nat) (r : NpyResultM), parseNpy buffer = .ok r →
      r.data.length * elemSizeOfDescr r.dtype = buffer.length - npyDataOffset buffer) ∧
    (parseNpy npyScenario48).toOption.map NpyResultM.shape = some [JVal.fin 3, JVal.fin 4] ∧
    (parseNpy npyScenario48).toOption.map (fun r => r.data.length) = some (3 * 4) := by
  refine ⟨?_, by decide, by decide⟩
  intro buffer r h
  unfold parseNpy at h
  cases hrh : readHeader buffer with
  | error e =>
    rw [hrh] at h
    dsimp only at h
    exact absurd h (by simp)
  | ok info =>
    rw [hrh] at h
    dsimp only at h
    cases hph : parseHeader info.header with
    | error e =>
      rw [hph] at h
      dsimp only at h
      exact absurd h (by simp)
    | ok ph =>
      rw [hph] at h
      dsimp only at h
      have hoff : npyDataOffset buffer = info.offset := by simp [npyDataOffset, hrh]
      have hoffle : info.offset ≤ buffer.length := readHeader_offset_le hrh
      by_cases hfo : ph.fortranOrder = true
      · rw [if_pos hfo] at h
        exact absurd h (by simp)
      rw [if_neg hfo] at h
      by_cases hd4 : ph.descr = ("<f4").toList ∨ ph.descr = ("|f4").toList ∨
          ph.descr = ("<f").toList
      · rw [if_pos hd4] at h
        by_cases ha : info.offset % 4 ≠ 0
        · rw [if_pos ha] at h
          exact absurd h (by simp)
        rw [if_neg ha] at h
        by_cases hb : (buffer.length - info.offset) % 4 ≠ 0
        · rw [if_pos hb] at h
          exact absurd h (by simp)
        rw [if_neg hb] at h
        injection h with h'
        subst h'
        have hdvd : 4 ∣ (buffer.drop info.offset).length := by
          rw [List.length_drop]
          exact Nat.dvd_of_mod_eq_zero (by omega)
        have hsz : elemSizeOfDescr ph.descr = 4 := by
          unfold elemSizeOfDescr
          rw [if_pos hd4]
        rw [hoff]
        simpa [hsz, List.length_drop] using
          chunkBytes_length_mul 4 (by norm_num) (buffer.drop info.offset) hdvd
      · rw [if_neg hd4] at h
        by_cases hd8 : ph.descr = ("<f8").toList ∨ ph.descr = ("|f8").toList
        · rw [if_pos hd8] at h
          by_cases ha : info.offset % 8 ≠ 0
          · rw [if_pos ha] at h
            exact absurd h (by simp)
          rw [if_neg ha] at h
          by_cases hb : (buffer.length - info.offset) % 8 ≠ 0
          · rw [if_pos hb] at h
            exact absurd h (by simp)
          rw [if_neg hb] at h
          injection h with h'
          subst h'
          have hdvd : 8 ∣ (buffer.drop info.offset).length := by
            rw [List.length_drop]
            exact Nat.dvd_of_mod_eq_zero (by omega)
          have hsz : elemSizeOfDescr ph.descr = 8 := by
            unfold elemSizeOfDescr
            rw [if_neg hd4, if_pos hd8]
          rw [hoff]
          simpa [hsz, List.length_drop] using
            chunkBytes_length_mul 8 (by norm_num) (buffer.drop info.offset) hdvd
        · rw [if_neg hd8] at h
          exact absurd h (by simp)

/-- The record produced by decoding the 48-byte-payload scenario buffer. -/
def npyScenarioResult : NpyResultM :=
  ⟨("<f4").toList, false, [JVal.fin 3, JVal.fin 4], chunkBytes 4 (npyScenario48.drop 72)⟩

set_option maxRecDepth 40000 in
/-- C4 witness: the amended count law applied to the concrete scenario
buffer (12 elements times 4 bytes equals the 48 payload bytes). -/
theorem C4_amended_witness :
    parseNpy npyScenario48 = .ok npyScenarioResult ∧
    npyScenarioResult.data.length * elemSizeOfDescr npyScenarioResult.dtype =
      npyScenario48.length - npyDataOffset npyScenario48 :=
  ⟨by decide, C4_amended.1 npyScenario48 npyScenarioResult (by decide)⟩

/-- C7 counterexample: a 3-byte buffer has leading bytes that differ from
the magic prefix, yet decoding fails with the typed-array `RangeError`
raised before the signature check, not with the signature-mismatch
error. -/
theorem C7_counterexample :
    parseNpy [1, 2, 3] = .error .rangeError ∧
    NpyError.rangeError ≠ NpyError.invalidSignature :=
  ⟨by decide, by decide⟩

/-- C7 amended: for every buffer of at least 6 bytes whose leading 6
bytes differ from the magic prefix, decoding fails with the
signature-mismatch error and through no other path; a buffer shorter
than 6 bytes instead fails with the `RangeError` raised by the
`Uint8Array` construction before the signature check. -/
theorem C7_amended :
    (∀ buffer : List Nat, 6 ≤ buffer.length → buffer.take 6 ≠ MAGIC →
      parseNpy buffer = .error .invalidSignature) ∧
    (∀ buffer : List Nat, buffer.length < 6 → parseNpy buffer = .error .rangeError) := by
  constructor
  · intro buffer h6 hm
    have hn : ¬ buffer.length < 6 := by omega
    simp [parseNpy, readHeader, hn, hm]
  · intro buffer h6
    simp [parseNpy, readHeader, h6]

/-- C7 witness: the amended claim applied to a concrete 6-byte
zero buffer (wrong magic) and a concrete 2-byte buffer (too short). -/
theorem C7_amended_witness :
    parseNpy (List.replicate 6 0) = .error .invalidSignature ∧
    parseNpy [1, 2] = .error .rangeError :=
  ⟨C7_amended.1 (List.replicate 6 0) (by decide) (by decide),
   C7_amended.2 [1, 2] (by decide)⟩

/-- The error thrown by `reshapeMatrices` (its only throw site, the
`Unexpected NPY shape for matrix data` error). -/
inductive ReshapeError where
  | badShape
deriving DecidableEq, Repr

/-- Embedding of `reshapeMatrix` from `useSceneData.ts`: out-of-range
reads of the flat buffer give `undefined`, which the surrounding code
pushes into the row unchanged. -/
def reshapeMatrix (data : List JVal) (index rows cols : Nat) : List (List JVal) :=
  (List.range rows).map (fun r =>
    (List.range cols).map (fun c =>
      data.getD (index * (rows * cols) + r * cols + c) JVal.undef))

/-- Embedding of `reshapeMatrices` from `useSceneData.ts`. The loop
`for (i = 0; i < matrixCount; i++)` with the JS real-number quotient
`matrixCount = data.length / (rows * cols)` executes `i = 0, 1, ...`
while `i < matrixCount`, i.e. the ceiling of that quotient many times
when `rows * cols` is positive (every call site passes 3x4 or 3x3).
There is no check that the length is a multiple of `rows * cols`. -/
def reshapeMatrices (data : List JVal) (shape : List JVal) (rows cols : Nat) :
    Except ReshapeError (List (List (List JVal))) :=
  if shape.length < 2 then .error .badShape
  else
    .ok ((List.range ((data.length + rows * cols - 1) / (rows * cols))).map
      (fun i => reshapeMatrix data i rows cols))

/-- The 13-element flat buffer used to exercise the mismatched-length
behaviour of `reshapeMatrices`. -/
def flat13 : List JVal := List.replicate 13 (JVal.fin 1)

/-- The declared shape accompanying `flat13` (three dims, product 12). -/
def shape134 : List JVal := [JVal.fin 1, JVal.fin 3, JVal.fin 4]

/-- C5 counterexample: a 13-element flat buffer is not a whole multiple
of 3 x 4 = 12, yet `reshapeMatrices` does not fail: it returns two
matrices (the second padded with `undefined` reads), so the claim that
mismatched lengtht yields a ShapeError is false on the code. -/
theorem C5_counterexample :
    (13 : Nat) % (3 * 4) ≠ 0 ∧
    reshapeMatrices flat13 shape134 3 4 ≠ .error .badShape ∧
    (reshapeMatrices flat13 shape134 3 4).toOption.map List.length = some 2 ∧
    jget2 (((reshapeMatrices flat13 shape134 3 4).toOption.getD []).getD 1 []) 2 3 =
      JVal.undef := by
  refine ⟨by decide, by decide, by decide, by decide⟩

/-- C5 amended: `reshapeMatrices` throws only when the declared shape
has fewer than two dimensions; a flat buffer whose length is not a
whole multiple of `rows * cols` is not rejected, and the number of
returned matrices is the ceiling of `length / (rows * cols)` (the
excess entries of the final matrix read as `undefined`). -/
theorem C5_amended :
    (∀ (data shape : List JVal) (rows cols : Nat),
      reshapeMatrices data shape rows cols = .error .badShape ↔ shape.length < 2) ∧
    (∀ (data shape : List JVal) (rows cols : Nat) (ms : List (List (List JVal))),
      reshapeMatrices data shape rows cols = .ok ms →
      ms.length = (data.length + rows * cols - 1) / (rows * cols)) := by
  constructor
  · intro data shape rows cols
    unfold reshapeMatrices
    split_ifs with hs
    · simp [hs]
    · simp [hs]
  · intro data shape rows cols ms h
    unfold reshapeMatrices at h
    split_ifs at h with hs
    all_goals injection h with h'
    all_goals (subst h'; simp)

/-- C5 witness: the amended claim applied to the 13-element buffer with
a one-dimensional declared shape (error case) and with the (1,3,4)
shape (two matrices returned). -/
theorem C5_amended_witness :
    (reshapeMatrices flat13 [JVal.fin 2] 3 4 = .error .badShape ↔
      ([JVal.fin 2] : List JVal).length < 2) ∧
    ((List.range ((flat13.length + 3 * 4 - 1) / (3 * 4))).map
      (fun i => reshapeMatrix flat13 i 3 4)).length =
      (flat13.length + 3 * 4 - 1) / (3 * 4) :=
  ⟨C5_amended.1 flat13 [JVal.fin 2] 3 4,
   C5_amended.2 flat13 shape134 3 4 _ (by decide)⟩

/-- Scene image record; only the `index` field participates in the
embedded logic (`images.find(img => img.index === i)`). -/
structure SceneImageM where
  index : Nat
deriving DecidableEq, Repr

/-- The `SceneCamera` record fields set by `buildSceneCameras` and read
by the navigation and projection code. -/
structure SceneCamera where
  index : Nat
  extrinsics : List (List JVal)
  extrinsicsC2W : List (List JVal)
  extrinsicsW2C : List (List JVal)
  rotationC2W : List (List JVal)
  rotationW2C : List (List JVal)
  intrinsics : List (List JVal)
  position : Vec3
  positionWorld : Vec3
  rotationMatrix : List (List JVal)
  poseEncoding : Option (List JVal)
  image : Option SceneImageM
  navigableNeighbors : List Nat
deriving DecidableEq, Repr

/-- `NAV_GRAPH_RADIUS = 5`. -/
def NAV_GRAPH_RADIUS : JVal := JVal.fin 5

/-- `NAV_GRAPH_NEIGHBORS = 6`. -/
def NAV_GRAPH_NEIGHBORS : Nat := 6

/-- The Phase-A distance: `Math.sqrt(dx*dx + dy*dy + dz*dz)` on world
positions. -/
def camDistance (cameraA cameraB : SceneCamera) : JVal :=
  let dx := jsub cameraB.positionWorld.x cameraA.positionWorld.x
  let dy := jsub cameraB.positionWorld.y cameraA.positionWorld.y
  let dz := jsub cameraB.positionWorld.z cameraA.positionWorld.z
  jsqrt (jadd (jadd (jmul dx dx) (jmul dy dy)) (jmul dz dz))

/-- A Phase-A candidate entry `{index, distance}`. -/
structure NavCand where
  index : Nat
  distance : JVal
deriving DecidableEq, Repr

/-- The candidate collection loop of `buildNavigationGraph`: every other
camera position `j`, keeping finite nonzero distances. -/
def navCandidates (cameras : List SceneCamera) (i : Nat) (cameraA : SceneCamera) :
    List NavCand :=
  (List.range cameras.length).filterMap (fun j =>
    if j = i then none
    else
      match cameras[j]? with
      | none => none
      | some cameraB =>
        let distance := camDistance cameraA cameraB
        if !(isFin distance) || (distance == JVal.fin 0) then none
        else some ⟨cameraB.index, distance⟩)

/-- Stable insertion, modelling `Array.prototype.sort` (stable,
ascending by the comparator `(a, b) => a.distance - b.distance`). -/
def insertCand (c : NavCand) : List NavCand → List NavCand
  | [] => [c]
  | d :: rest => if jle c.distance d.distance then c :: d :: rest else d :: insertCand c rest

/-- Stable ascending-by-distance sort of the candidate array. -/
def sortCands : List NavCand → List NavCand
  | [] => []
  | c :: rest => insertCand c (sortCands rest)

/-- JS `Set.add` on a set represented by its insertion-ordered element
list. -/
def setAdd (sel : List Nat) (x : Nat) : List Nat :=
  if sel.contains x then sel else sel ++ [x]

/-- First selection loop of Phase A: accept candidates with distance at
most the radius, in sorted order, breaking once the cap is reached. -/
def navLoop1 (radius : JVal) (maxNeighbors : Nat) : List NavCand → List Nat → List Nat
  | [], sel => sel
  | c :: rest, sel =>
    let s := if jle c.distance radius then setAdd sel c.index else sel
    if maxNeighbors ≤ s.length then s
    else navLoop1 radius maxNeighbors rest s

/-- Second selection loop of Phase A: top up with the next-nearest
candidates until the cap is reached. -/
def navLoop2 (maxNeighbors : Nat) : List NavCand → List Nat → List Nat
  | [], sel => sel
  | c :: rest, sel =>
    if sel.contains c.index then navLoop2 maxNeighbors rest sel
    else
      let s := sel ++ [c.index]
      if maxNeighbors ≤ s.length then s
      else navLoop2 maxNeighbors rest s

/-- The neighbor pool Phase A assigns to the camera at position `i`. -/
def navPool (cameras : List SceneCamera) (radius : JVal) (maxNeighbors : Nat)
    (i : Nat) (cameraA : SceneCamera) : List Nat :=
  let candidates := sortCands (navCandidates cameras i cameraA)
  let s1 := navLoop1 radius maxNeighbors candidates []
  if s1.length < maxNeighbors then navLoop2 maxNeighbors candidates s1 else s1

/-- Embedding of `buildNavigationGraph` from `useSceneData.ts`. The
in-place mutation of `navigableNeighbors` becomes a functional update;
the loop body only reads world positions, which it never writes, so the
iteration order is immaterial. -/
def buildNavigationGraph (cameras : List SceneCamera) (radius : JVal)
    (maxNeighbors : Nat) : List SceneCamera :=
  cameras.mapIdx (fun i cameraA =>
    { cameraA with navigableNeighbors := navPool cameras radius maxNeighbors i cameraA })

/-- A navigation pair (`{left?, right?}` in `navGraph.ts`). -/
structure NavPair where
  left : Option Nat
  right : Option Nat
deriving DecidableEq, Repr

/-- The side classification of `navGraph.ts`. -/
inductive Side where
  | left
  | right
deriving DecidableEq, Repr

/-- A Phase-B candidate entry `{side, dist, idx}`. -/
structure SideCand where
  side : Side
  dist : JVal
  idx : Nat
deriving DecidableEq, Repr

/-- `camByIndex.get`: the `Map` built by inserting every camera keyed by
its `index` field returns the last insertion for a key. -/
def camByIndexGet (cameras : List SceneCamera) (idx : Nat) : Option SceneCamera :=
  cameras.reverse.find? (fun c => c.index == idx)

/-- The epsilon `1e-6` of the degenerate-alignment rejection. -/
def NAV_EPS : JVal := JVal.fin (mkRat 1 1000000)

/-- The `candidates` array `buildNavGraph` collects for one camera:
resolve each pooled neighbor index, re-check the distance, apply the
mostly-behind and degenerate-alignment rejections, and classify the
side by the sign of `camX`. -/
def sideCandidates (cameras : List SceneCamera) (cameraA : SceneCamera) : List SideCand :=
  cameraA.navigableNeighbors.filterMap (fun neighborIndex =>
    match camByIndexGet cameras neighborIndex with
    | none => none
    | some neighborCamera =>
      let dx := jsub neighborCamera.positionWorld.x cameraA.positionWorld.x
      let dy := jsub neighborCamera.positionWorld.y cameraA.positionWorld.y
      let dz := jsub neighborCamera.positionWorld.z cameraA.positionWorld.z
      let dist := jhypot3 dx dy dz
      if !(isFin dist) || (dist == JVal.fin 0) then none
      else
        let camX := jadd (jadd (jmul (coalesce0 (jget2 cameraA.rotationW2C 0 0)) dx)
                               (jmul (coalesce0 (jget2 cameraA.rotationW2C 0 1)) dy))
                         (jmul (coalesce0 (jget2 cameraA.rotationW2C 0 2)) dz)
        let camZ := jadd (jadd (jmul (coalesce0 (jget2 cameraA.rotationW2C 2 0)) dx)
                               (jmul (coalesce0 (jget2 cameraA.rotationW2C 2 1)) dy))
                         (jmul (coalesce0 (jget2 cameraA.rotationW2C 2 2)) dz)
        if jlt (jabs camX) (jabs camZ) && jle camZ (JVal.fin 0) then none
        else if !(isFin camX) || jlt (jabs camX) NAV_EPS then none
        else some ⟨if jlt (JVal.fin 0) camX then Side.right else Side.left,
                   dist, neighborIndex⟩)

/-- One step of the closest-per-side fold at the end of `buildNavGraph`
(`c.dist < best.dist` updates the best). -/
def pickStep (s : Side) (best : Option (JVal × Nat)) (c : SideCand) : Option (JVal × Nat) :=
  if c.side = s then
    match best with
    | none => some (c.dist, c.idx)
    | some (bd, bi) => if jlt c.dist bd then some (c.dist, c.idx) else some (bd, bi)
  else best

/-- The closest-per-side fold at the end of `buildNavGraph`. -/
def pickBest (cs : List SideCand) (s : Side) : Option (JVal × Nat) :=
  cs.foldl (pickStep s) none

/-- The navigation pair `buildNavGraph` stores for one camera. -/
def navPairFor (cameras : List SceneCamera) (cameraA : SceneCamera) : NavPair :=
  ⟨(pickBest (sideCandidates cameras cameraA) Side.left).map (fun p => p.2),
   (pickBest (sideCandidates cameras cameraA) Side.right).map (fun p => p.2)⟩

/-- Embedding of `buildNavGraph` from `lib/navGraph.ts`: the record from
camera index to navigation pair, built over every camera of the scene. -/
def buildNavGraph (cameras : List SceneCamera) : List (Nat × NavPair) :=
  cameras.map (fun c => (c.index, navPairFor cameras c))

/-- Embedding of `buildSceneCameras` from `useSceneData.ts` (debug
logging elided; the trailing `buildNavigationGraph(cameras)` call uses
the default radius and cap). -/
def buildSceneCameras (extrinsicsMatrices intrinsicsMatrices : List (List (List JVal)))
    (poseEncodings : List (Option (List JVal))) (images : List SceneImageM) :
    List SceneCamera :=
  let cameraCount := min extrinsicsMatrices.length intrinsicsMatrices.length
  let cameras := (List.range cameraCount).map (fun i =>
    let d := decomposeExtrinsicsW2C (extrinsicsMatrices.getD i [])
    { index := i
      extrinsics := d.extrinsicsW2C
      extrinsicsC2W := d.extrinsicsC2W
      extrinsicsW2C := d.extrinsicsW2C
      rotationC2W := d.rotationC2W
      rotationW2C := d.rotationW2C
      intrinsics := sanitizeIntrinsics (intrinsicsMatrices.getD i [])
      position := d.positionWorld
      positionWorld := d.positionWorld
      rotationMatrix := d.rotationW2C
      poseEncoding := poseEncodings.getD i none
      image := images.find? (fun img => img.index == i)
      navigableNeighbors := [] })
  buildNavigationGraph cameras NAV_GRAPH_RADIUS NAV_GRAPH_NEIGHBORS

/-- World-to-camera extrinsics of the five synthetic line cameras:
identity rotation and translation `(-i, 0, 0)`, so the world position
is `(i, 0, 0)` and the shared camera X axis is the world X axis. -/
def lineExtrs : List (List (List JVal)) :=
  [0, 1, 2, 3, 4].map (fun i =>
    [[JVal.fin 1, JVal.fin 0, JVal.fin 0, JVal.fin (-(i : ℚ))],
     [JVal.fin 0, JVal.fin 1, JVal.fin 0, JVal.fin 0],
     [JVal.fin 0, JVal.fin 0, JVal.fin 1, JVal.fin 0]])

set_option maxRecDepth 40000 in
/-- C8: in the synthetic scene of 5 identically oriented cameras placed
on a line one world-unit apart along the shared camera-frame X axis,
every interior camera (indices 1, 2, 3) receives its immediate spatial
neighbors as left ( i-1 ) and right ( i+1 ) navigation neighbors, and
each end camera has exactly one populated side. -/
theorem C8_line_scene :
    buildNavGraph (buildSceneCameras lineExtrs (List.replicate 5 projK0) [] []) =
      [(0, ⟨none, some 1⟩), (1, ⟨some 0, some 2⟩), (2, ⟨some 1, some 3⟩),
       (3, ⟨some 2, some 4⟩), (4, ⟨some 3, none⟩)] := by
  decide

theorem buildNavigationGraph_length (cameras : List SceneCamera) (r : JVal) (K : Nat) :
    (buildNavigationGraph cameras r K).length = cameras.length := by
  simp [buildNavigationGraph]

theorem buildNavigationGraph_get (cameras : List SceneCamera) (r : JVal) (K : Nat)
    (p : Nat) (hp : p < cameras.length)
    (hp2 : p < (buildNavigationGraph cameras r K).length) :
    (buildNavigationGraph cameras r K).get ⟨p, hp2⟩ =
      { cameras.get ⟨p, hp⟩ with
        navigableNeighbors := navPool cameras r K p (cameras.get ⟨p, hp⟩) } := by
  unfold buildNavigationGraph at hp2 ⊢
  exact List.get_mapIdx cameras _ p hp hp2

/-- A placeholder camera used as the default of list reads in witness
statements. -/
def dummyCamera : SceneCamera :=
  ⟨0, [], [], [], [], [], [], ⟨JVal.fin 0, JVal.fin 0, JVal.fin 0⟩,
   ⟨JVal.fin 0, JVal.fin 0, JVal.fin 0⟩, [], none, none, []⟩

/-- C10: when the extrinsics and intrinsics arrays hold different record
counts, scene construction does not fail: exactly min(N_e, N_i)
cameras are built, indexed positionally, each from the k-th extrinsics
and intrinsics records, and the surplus records of the longer array are
dropped. -/
theorem C10_min_count (extrinsicsMatrices intrinsicsMatrices : List (List (List JVal)))
    (poseEncodings : List (Option (List JVal))) (images : List SceneImageM) :
    (buildSceneCameras extrinsicsMatrices intrinsicsMatrices poseEncodings images).length =
      min extrinsicsMatrices.length intrinsicsMatrices.length ∧
    ∀ k (hk : k < (buildSceneCameras extrinsicsMatrices intrinsicsMatrices
        poseEncodings images).length),
      ((buildSceneCameras extrinsicsMatrices intrinsicsMatrices poseEncodings
          images).get ⟨k, hk⟩).index = k ∧
      ((buildSceneCameras extrinsicsMatrices intrinsicsMatrices poseEncodings
          images).get ⟨k, hk⟩).rotationW2C =
        (decomposeExtrinsicsW2C (extrinsicsMatrices.getD k [])).rotationW2C ∧
      ((buildSceneCameras extrinsicsMatrices intrinsicsMatrices poseEncodings
          images).get ⟨k, hk⟩).positionWorld =
        (decomposeExtrinsicsW2C (extrinsicsMatrices.getD k [])).positionWorld ∧
      ((buildSceneCameras extrinsicsMatrices intrinsicsMatrices poseEncodings
          images).get ⟨k, hk⟩).extrinsicsW2C =
        (decomposeExtrinsicsW2C (extrinsicsMatrices.getD k [])).extrinsicsW2C ∧
      ((buildSceneCameras extrinsicsMatrices intrinsicsMatrices poseEncodings
          images).get ⟨k, hk⟩).intrinsics =
        sanitizeIntrinsics (intrinsicsMatrices.getD k []) ∧
      ((buildSceneCameras extrinsicsMatrices intrinsicsMatrices poseEncodings
          images).get ⟨k, hk⟩).poseEncoding = poseEncodings.getD k none := by
  constructor
  · simp [buildSceneCameras, buildNavigationGraph_length]
  · intro k hk
    have hlen : (buildSceneCameras extrinsicsMatrices intrinsicsMatrices poseEncodings
        images).length = min extrinsicsMatrices.length intrinsicsMatrices.length := by
      simp [buildSceneCameras, buildNavigationGraph_length]
    have hk0 : k < ((List.range (min extrinsicsMatrices.length
        intrinsicsMatrices.length)).map (fun i =>
          let d := decomposeExtrinsicsW2C (extrinsicsMatrices.getD i [])
          ({ index := i
             extrinsics := d.extrinsicsW2C
             extrinsicsC2W := d.extrinsicsC2W
             extrinsicsW2C := d.extrinsicsW2C
             rotationC2W := d.rotationC2W
             rotationW2C := d.rotationW2C
             intrinsics := sanitizeIntrinsics (intrinsicsMatrices.getD i [])
             position := d.positionWorld
             positionWorld := d.positionWorld
             rotationMatrix := d.rotationW2C
             poseEncoding := poseEncodings.getD i none
             image := images.find? (fun img => img.index == i)
             navigableNeighbors := [] } : SceneCamera))).length := by
      rw [hlen] at hk
      simpa using hk
    unfold buildSceneCameras at hk ⊢
    rw [buildNavigationGraph_get _ _ _ k hk0 hk]
    simp [List.getElem_map]

set_option maxRecDepth 40000 in
/-- C10 witness: the count law applied to the five-camera line scene
(equal-length arrays give five cameras; camera 2 is built from the
third records). -/
theorem C10_min_count_witness :
    (buildSceneCameras lineExtrs (List.replicate 5 projK0) [] []).length =
      min lineExtrs.length (List.replicate 5 projK0).length ∧
    ((buildSceneCameras lineExtrs (List.replicate 5 projK0) [] []).getD 2
        dummyCamera).index = 2 := by
  have h := C10_min_count lineExtrs (List.replicate 5 projK0) [] []
  refine ⟨h.1, ?_⟩
  have hk : 2 < (buildSceneCameras lineExtrs (List.replicate 5 projK0) [] []).length := by
    rw [h.1]
    decide
  have h2 := (h.2 2 hk).1
  rw [List.getD_eq_getElem _ _ hk]
  exact h2

theorem isFin_iff {v : JVal} : isFin v = true ↔ ∃ q, v = JVal.fin q := by
  cases v <;> simp [isFin]

theorem jle_total_of_fin {a b : ℚ} :
    jle (JVal.fin a) (JVal.fin b) = false → jle (JVal.fin b) (JVal.fin a) = true := by
  simp only [jle, JVal.toNum, decide_eq_false_iff_not, decide_eq_true_eq, not_le]
  exact le_of_lt

theorem jle_trans_left {a b : ℚ} {c : JVal} (hab : jle (JVal.fin a) (JVal.fin b) = true)
    (hbc : jle (JVal.fin b) c = true) : jle (JVal.fin a) c = true := by
  cases c <;> simp_all [jle, JVal.toNum]
  exact le_trans hab hbc

/-- Sortedness of a candidate list, ascending by distance. -/
def CandSorted (cs : List NavCand) : Prop :=
  cs.Pairwise (fun a b => jle a.distance b.distance = true)

theorem mem_insertCand {x c : NavCand} {l : List NavCand} :
    x ∈ insertCand c l ↔ x = c ∨ x ∈ l := by
  induction l with
  | nil => simp [insertCand]
  | cons d rest ih =>
    by_cases h : jle c.distance d.distance = true
    · simp [insertCand, h]
    · simp only [insertCand, if_neg h, List.mem_cons, ih]
      tauto

theorem insertCand_perm (c : NavCand) (l : List NavCand) :
    (insertCand c l).Perm (c :: l) := by
  induction l with
  | nil => simp [insertCand]
  | cons d rest ih =>
    by_cases h : jle c.distance d.distance = true
    · simp [insertCand, h]
    · simp only [insertCand, if_neg h]
      exact (List.Perm.cons d ih).trans (List.Perm.swap c d rest)

theorem sortCands_perm (l : List NavCand) : (sortCands l).Perm l := by
  induction l with
  | nil => simp [sortCands]
  | cons c rest ih =>
    exact (insertCand_perm c (sortCands rest)).trans (List.Perm.cons c ih)

theorem mem_sortCands {x : NavCand} {l : List NavCand} : x ∈ sortCands l ↔ x ∈ l :=
  (sortCands_perm l).mem_iff

theorem insertCand_sorted {c : NavCand} {l : List NavCand}
    (hfc : isFin c.distance = true) (hfl : ∀ x ∈ l, isFin x.distance = true)
    (hs : CandSorted l) : CandSorted (insertCand c l) := by
  induction l with
  | nil => simp [insertCand, CandSorted]
  | cons d rest ih =>
    obtain ⟨hd, hrest⟩ := List.pairwise_cons.mp hs
    unfold CandSorted
    by_cases h : jle c.distance d.distance = true
    · simp only [insertCand, if_pos h]
      refine List.pairwise_cons.mpr ⟨?_, hs⟩
      intro x hx
      rcases List.mem_cons.mp hx with rfl | hx
      · exact h
      · obtain ⟨qc, hqc⟩ := isFin_iff.mp hfc
        obtain ⟨qd, hqd⟩ := isFin_iff.mp (hfl d (by simp))
        rw [hqc] at h ⊢
        rw [hqd] at h hd
        exact jle_trans_left h (hd x hx)
    · have ihs := ih (fun x hx => hfl x (by simp [hx])) hrest
      simp only [insertCand, if_neg h]
      refine List.pairwise_cons.mpr ⟨?_, ihs⟩
      intro x hx
      rcases mem_insertCand.mp hx with rfl | hx
      · obtain ⟨qc, hqc⟩ := isFin_iff.mp hfc
        obtain ⟨qd, hqd⟩ := isFin_iff.mp (hfl d (by simp))
        rw [hqc] at h
        rw [hqd] at h ⊢
        rw [hqc]
        exact jle_total_of_fin (Bool.eq_false_iff.mpr h)
      · exact hd x hx

theorem sortCands_sorted {l : List NavCand}
    (hfl : ∀ x ∈ l, isFin x.distance = true) : CandSorted (sortCands l) := by
  induction l with
  | nil => simp [sortCands, CandSorted]
  | cons c rest ih =>
    have hrest := ih (fun x hx => hfl x (by simp [hx]))
    exact insertCand_sorted (hfl c (by simp))
      (fun x hx => hfl x (by simp [mem_sortCands.mp hx])) hrest

theorem setAdd_of_not_mem {sel : List Nat} {x : Nat} (h : x ∉ sel) :
    setAdd sel x = sel ++ [x] := by
  simp [setAdd, h]

theorem navLoop1_eq (radius : JVal) (K : Nat) :
    ∀ (cs : List NavCand) (sel : List Nat),
      sel.length < K →
      (∀ c ∈ cs, c.index ∉ sel) →
      (cs.map NavCand.index).Nodup →
      navLoop1 radius K cs sel =
        sel ++ ((cs.filter (fun c => jle c.distance radius)).take
          (K - sel.length)).map NavCand.index := by
  intro cs
  induction cs with
  | nil => intro sel hlen _ _; simp [navLoop1]
  | cons c rest ih =>
    intro sel hlen hnotin hnd
    have hcr : c.index ∉ rest.map NavCand.index := (List.nodup_cons.mp hnd).1
    have hndrest : (rest.map NavCand.index).Nodup := (List.nodup_cons.mp hnd).2
    have hcnot : c.index ∉ sel := hnotin c (by simp)
    have hrestne : ∀ x ∈ rest, x.index ≠ c.index := fun x hx hxc =>
      hcr (List.mem_map.mpr ⟨x, hx, hxc⟩)
    simp only [navLoop1]
    by_cases hle : jle c.distance radius = true
    · rw [if_pos hle, setAdd_of_not_mem hcnot]
      by_cases hK : K ≤ (sel ++ [c.index]).length
      · rw [if_pos hK]
        have hK1 : K - sel.length = 1 := by
          simp only [List.length_append, List.length_singleton] at hK
          omega
        have hfc : (c :: rest).filter (fun x => jle x.distance radius) =
            c :: rest.filter (fun x => jle x.distance radius) := by
          simp [List.filter_cons, hle]
        rw [hfc, hK1, List.take_succ_cons, List.take_zero]
        simp
      · rw [if_neg hK]
        have hlt : (sel ++ [c.index]).length < K := by omega
        have hnotin2 : ∀ x ∈ rest, x.index ∉ sel ++ [c.index] := by
          intro x hx
          simp only [List.mem_append, List.mem_singleton]
          rintro (hxs | hxc)
          · exact hnotin x (by simp [hx]) hxs
          · exact hrestne x hx hxc
        rw [ih (sel ++ [c.index]) hlt hnotin2 hndrest]
        have hfc : (c :: rest).filter (fun x => jle x.distance radius) =
            c :: rest.filter (fun x => jle x.distance radius) := by
          simp [List.filter_cons, hle]
        rw [hfc]
        have h2 : K - sel.length = (K - (sel ++ [c.index]).length) + 1 := by
          simp only [List.length_append, List.length_singleton] at hK ⊢
          omega
        rw [h2, List.take_succ_cons]
        simp
    · rw [if_neg hle]
      have hnK : ¬ K ≤ sel.length := by omega
      rw [if_neg hnK]
      rw [ih sel hlen (fun x hx => hnotin x (by simp [hx])) hndrest]
      have hfc : (c :: rest).filter (fun x => jle x.distance radius) =
          rest.filter (fun x => jle x.distance radius) := by
        simp [List.filter_cons, hle]
      rw [hfc]

theorem navLoop2_eq (K : Nat) :
    ∀ (cs : List NavCand) (sel : List Nat),
      sel.length < K →
      (cs.map NavCand.index).Nodup →
      navLoop2 K cs sel =
        sel ++ ((cs.filter (fun c => !sel.contains c.index)).take
          (K - sel.length)).map NavCand.index := by
  intro cs
  induction cs with
  | nil => intro sel hlen _; simp [navLoop2]
  | cons c rest ih =>
    intro sel hlen hnd
    have hcr : c.index ∉ rest.map NavCand.index := (List.nodup_cons.mp hnd).1
    have hndrest : (rest.map NavCand.index).Nodup := (List.nodup_cons.mp hnd).2
    have hrestne : ∀ x ∈ rest, x.index ≠ c.index := fun x hx hxc =>
      hcr (List.mem_map.mpr ⟨x, hx, hxc⟩)
    simp only [navLoop2]
    by_cases hmem : sel.contains c.index = true
    · rw [if_pos hmem]
      rw [ih sel hlen hndrest]
      have hmem2 : c.index ∈ sel := by simpa using hmem
      have hfc : (c :: rest).filter (fun x => !sel.contains x.index) =
          rest.filter (fun x => !sel.contains x.index) := by
        simp [List.filter_cons, hmem2]
      rw [hfc]
    · rw [if_neg hmem]
      have hmem2 : c.index ∉ sel := by simpa using hmem
      have hfc : (c :: rest).filter (fun x => !sel.contains x.index) =
          c :: rest.filter (fun x => !sel.contains x.index) := by
        simp [List.filter_cons, hmem2]
      by_cases hK : K ≤ (sel ++ [c.index]).length
      · rw [if_pos hK]
        have hK1 : K - sel.length = 1 := by
          simp only [List.length_append, List.length_singleton] at hK
          omega
        rw [hfc, hK1, List.take_succ_cons, List.take_zero]
        simp
      · rw [if_neg hK]
        have hlt : (sel ++ [c.index]).length < K := by omega
        rw [ih (sel ++ [c.index]) hlt hndrest]
        have hfeq : rest.filter (fun x => !(sel ++ [c.index]).contains x.index) =
            rest.filter (fun x => !sel.contains x.index) := by
          apply List.filter_congr
          intro x hx
          have hne : x.index ≠ c.index := hrestne x hx
          by_cases hx2 : x.index ∈ sel <;> simp [hx2, hne]
        rw [hfeq, hfc]
        have h2 : K - sel.length = (K - (sel ++ [c.index]).length) + 1 := by
          simp only [List.length_append, List.length_singleton] at hK ⊢
          omega
        rw [h2, List.take_succ_cons]
        simp

theorem sorted_filter_eq_takeWhile (r : JVal) :
    ∀ (cs : List NavCand), (∀ c ∈ cs, isFin c.distance = true) → CandSorted cs →
      cs.filter (fun c => jle c.distance r) = cs.takeWhile (fun c => jle c.distance r) := by
  intro cs
  induction cs with
  | nil => intro _ _; simp
  | cons c rest ih =>
    intro hfin hs
    obtain ⟨hd, hrest⟩ := List.pairwise_cons.mp hs
    by_cases h : jle c.distance r = true
    · have h1 : (c :: rest).filter (fun x => jle x.distance r) =
          c :: rest.filter (fun x => jle x.distance r) := by
        simp [List.filter_cons, h]
      have h2 : (c :: rest).takeWhile (fun x => jle x.distance r) =
          c :: rest.takeWhile (fun x => jle x.distance r) := by
        simp [List.takeWhile_cons, h]
      rw [h1, h2, ih (fun x hx => hfin x (by simp [hx])) hrest]
    · have h1 : (c :: rest).filter (fun x => jle x.distance r) =
          rest.filter (fun x => jle x.distance r) := by
        simp [List.filter_cons, h]
      have h2 : (c :: rest).takeWhile (fun x => jle x.distance r) = [] := by
        simp [List.takeWhile_cons, h]
      rw [h1, h2]
      rw [List.filter_eq_nil_iff]
      intro x hx hxr
      obtain ⟨qc, hqc⟩ := isFin_iff.mp (hfin c (by simp))
      obtain ⟨qx, hqx⟩ := isFin_iff.mp (hfin x (by simp [hx]))
      have hcx := hd x hx
      rw [hqc] at h
      rw [hqx] at hcx hxr
      rw [hqc] at hcx
      exact absurd (jle_trans_left hcx hxr) (by simpa using h)

theorem mem_navCandidates_iff {cameras : List SceneCamera} {i : Nat} {A : SceneCamera}
    {c : NavCand} :
    c ∈ navCandidates cameras i A ↔
      ∃ j, ∃ hj : j < cameras.length, j ≠ i ∧
        isFin (camDistance A (cameras.get ⟨j, hj⟩)) = true ∧
        camDistance A (cameras.get ⟨j, hj⟩) ≠ JVal.fin 0 ∧
        c = ⟨(cameras.get ⟨j, hj⟩).index, camDistance A (cameras.get ⟨j, hj⟩)⟩ := by
  constructor
  · intro hc
    simp only [navCandidates, List.mem_filterMap, List.mem_range] at hc
    obtain ⟨j, hj, hcj⟩ := hc
    refine ⟨j, hj, ?_⟩
    by_cases hij : j = i
    · rw [if_pos hij] at hcj
      exact absurd hcj (by simp)
    rw [if_neg hij] at hcj
    have hcam : cameras[j]? = some (cameras.get ⟨j, hj⟩) := by
      rw [List.getElem?_eq_getElem hj]
      rfl
    rw [hcam] at hcj
    dsimp only at hcj
    by_cases hguard :
        (!(isFin (camDistance A (cameras.get ⟨j, hj⟩))) ||
          (camDistance A (cameras.get ⟨j, hj⟩) == JVal.fin 0)) = true
    · rw [if_pos hguard] at hcj
      exact absurd hcj (by simp)
    · rw [if_neg hguard] at hcj
      simp only [Bool.or_eq_true, Bool.not_eq_true', beq_iff_eq, not_or] at hguard
      push_neg at hguard
      obtain ⟨hfin, hne⟩ := hguard
      refine ⟨hij, by simpa using hfin, hne, ?_⟩
      exact (Option.some_inj.mp hcj).symm
  · rintro ⟨j, hj, hij, hfin, hne, rfl⟩
    simp only [navCandidates, List.mem_filterMap, List.mem_range]
    refine ⟨j, hj, ?_⟩
    rw [if_neg hij]
    have hcam : cameras[j]? = some (cameras.get ⟨j, hj⟩) := by
      rw [List.getElem?_eq_getElem hj]
      rfl
    rw [hcam]
    dsimp only
    have hfin2 : isFin (camDistance A cameras[j]) = true := hfin
    have hne2 : camDistance A cameras[j] ≠ JVal.fin 0 := hne
    rw [if_neg (by simp [hfin2, hne2])]

theorem navCandidates_fin {cameras : List SceneCamera} {i : Nat} {A : SceneCamera} :
    ∀ c ∈ navCandidates cameras i A, isFin c.distance = true := by
  intro c hc
  obtain ⟨j, hj, _, hfin, _, rfl⟩ := mem_navCandidates_iff.mp hc
  exact hfin

theorem navPool_eq (cameras : List SceneCamera) (r : JVal) (K : Nat) (i : Nat)
    (A : SceneCamera) (hK : 1 ≤ K)
    (hnd : ((navCandidates cameras i A).map NavCand.index).Nodup) :
    navPool cameras r K i A =
      ((sortCands (navCandidates cameras i A)).take K).map NavCand.index := by
  have hfin : ∀ c ∈ sortCands (navCandidates cameras i A), isFin c.distance = true :=
    fun c hc => navCandidates_fin c (mem_sortCands.mp hc)
  have hsorted : CandSorted (sortCands (navCandidates cameras i A)) :=
    sortCands_sorted (fun x hx => navCandidates_fin x hx)
  have hndcs : ((sortCands (navCandidates cameras i A)).map NavCand.index).Nodup :=
    ((sortCands_perm (navCandidates cameras i A)).map NavCand.index).nodup_iff.mpr hnd
  have h1 : navLoop1 r K (sortCands (navCandidates cameras i A)) [] =
      (((sortCands (navCandidates cameras i A)).filter
        (fun c => jle c.distance r)).take K).map NavCand.index := by
    have h := navLoop1_eq r K (sortCands (navCandidates cameras i A)) []
      (by simpa using hK) (by simp) hndcs
    simpa using h
  have hFG : sortCands (navCandidates cameras i A) =
      (sortCands (navCandidates cameras i A)).filter (fun c => jle c.distance r) ++
      (sortCands (navCandidates cameras i A)).dropWhile (fun c => jle c.distance r) := by
    rw [sorted_filter_eq_takeWhile r _ hfin hsorted]
    exact (List.takeWhile_append_dropWhile _ _).symm
  set F := (sortCands (navCandidates cameras i A)).filter (fun c => jle c.distance r)
    with hFdef
  set G := (sortCands (navCandidates cameras i A)).dropWhile (fun c => jle c.distance r)
    with hGdef
  simp only [navPool]
  rw [h1]
  by_cases hcase : ((F.take K).map NavCand.index).length < K
  · rw [if_pos hcase]
    have hFlt : F.length < K := by
      simp only [List.length_map, List.length_take] at hcase
      omega
    have hFtake : F.take K = F := List.take_of_length_le (le_of_lt hFlt)
    have h2 := navLoop2_eq K (sortCands (navCandidates cameras i A))
      ((F.take K).map NavCand.index) hcase hndcs
    rw [h2]
    have hnd2 : (F.map NavCand.index ++ G.map NavCand.index).Nodup := by
      rw [← List.map_append, ← hFG]
      exact hndcs
    rw [List.nodup_append] at hnd2
    obtain ⟨-, -, hdisj⟩ := hnd2
    have hfilter : (sortCands (navCandidates cameras i A)).filter
        (fun c => !((F.take K).map NavCand.index).contains c.index) = G := by
      rw [hFtake, hFG, List.filter_append]
      have hFnil : F.filter (fun c => !(F.map NavCand.index).contains c.index) = [] := by
        rw [List.filter_eq_nil_iff]
        intro c hc
        have hmem : c.index ∈ F.map NavCand.index := List.mem_map.mpr ⟨c, hc, rfl⟩
        simpa using hmem
      have hGall : G.filter (fun c => !(F.map NavCand.index).contains c.index) = G := by
        rw [List.filter_eq_self]
        intro c hc
        have hGmem : c.index ∈ G.map NavCand.index := List.mem_map.mpr ⟨c, hc, rfl⟩
        have hFnot : c.index ∉ F.map NavCand.index := fun hmem => hdisj hmem hGmem
        simpa using hFnot
      rw [hFnil, hGall, List.nil_append]
    rw [hfilter]
    conv_rhs => rw [hFG]
    rw [List.take_append_eq_append_take, hFtake, List.map_append]
    simp [List.length_map]
  · rw [if_neg hcase]
    have hKle : K ≤ F.length := by
      simp only [List.length_map, List.length_take] at hcase
      omega
    conv_rhs => rw [hFG]
    rw [List.take_append_of_le_length hKle]

theorem positional_get {cameras : List SceneCamera}
    (hpos : cameras.map SceneCamera.index = List.range cameras.length)
    {p : Nat} (hp : p < cameras.length) : (cameras.get ⟨p, hp⟩).index = p := by
  have hp2 : p < (cameras.map SceneCamera.index).length := by simpa using hp
  have h1 := List.getElem_of_eq hpos hp2
  rw [List.getElem_map, List.getElem_range] at h1
  simpa [List.get_eq_getElem] using h1

theorem filterMap_map_back_sublist {α β : Type _} (f : α → Option β) (g : β → α) :
    ∀ (l : List α), (∀ a ∈ l, ∀ b, f a = some b → g b = a) →
      ((l.filterMap f).map g).Sublist l := by
  intro l
  induction l with
  | nil => intro _; simp
  | cons a rest ih =>
    intro hinj
    rw [List.filterMap_cons]
    cases hfa : f a with
    | none =>
      exact (ih (fun x hx => hinj x (by simp [hx]))).cons a
    | some b =>
      rw [List.map_cons, hinj a (by simp) b hfa]
      exact (ih (fun x hx => hinj x (by simp [hx]))).cons₂ a

theorem navCandidates_back {cameras : List SceneCamera} {i : Nat} {A : SceneCamera} :
    ∀ j ∈ List.range cameras.length, ∀ c : NavCand,
      (if j = i then none
       else
        match cameras[j]? with
        | none => none
        | some cameraB =>
          let distance := camDistance A cameraB
          if !(isFin distance) || (distance == JVal.fin 0) then none
          else some ⟨cameraB.index, distance⟩) = some c →
      (cameras.map SceneCamera.index = List.range cameras.length) → c.index = j := by
  intro j hj c hc hpos
  have hjlen : j < cameras.length := List.mem_range.mp hj
  by_cases hij : j = i
  · rw [if_pos hij] at hc
    exact absurd hc (by simp)
  rw [if_neg hij] at hc
  have hcam : cameras[j]? = some (cameras.get ⟨j, hjlen⟩) := by
    rw [List.getElem?_eq_getElem hjlen]
    rfl
  rw [hcam] at hc
  dsimp only at hc
  by_cases hguard :
      (!(isFin (camDistance A (cameras.get ⟨j, hjlen⟩))) ||
        (camDistance A (cameras.get ⟨j, hjlen⟩) == JVal.fin 0)) = true
  · rw [if_pos hguard] at hc
    exact absurd hc (by simp)
  · rw [if_neg hguard] at hc
    have hceq := Option.some_inj.mp hc
    rw [← hceq]
    exact positional_get hpos hjlen

theorem navCandidates_nodup {cameras : List SceneCamera} {i : Nat} {A : SceneCamera}
    (hpos : cameras.map SceneCamera.index = List.range cameras.length) :
    ((navCandidates cameras i A).map NavCand.index).Nodup := by
  have hsub := filterMap_map_back_sublist
    (fun j =>
      if j = i then none
      else
        match cameras[j]? with
        | none => none
        | some cameraB =>
          let distance := camDistance A cameraB
          if !(isFin distance) || (distance == JVal.fin 0) then none
          else some ⟨cameraB.index, distance⟩)
    NavCand.index
    (List.range cameras.length)
    (fun j hj c hc => navCandidates_back j hj c hc hpos)
  exact (List.nodup_range cameras.length).sublist hsub

/-- Claim-side definition for C9: plain K-nearest-neighbor selection,
with no radius parameter: the other cameras at finite nonzero distance,
sorted ascending by distance (stable), the first K kept. -/
def kNearestSpec (cameras : List SceneCamera) (K : Nat) (i : Nat) (A : SceneCamera) :
    List Nat :=
  ((sortCands ((List.range cameras.length).filterMap (fun j =>
    if j = i then none
    else
      match cameras[j]? with
      | none => none
      | some cameraB =>
        if isFin (camDistance A cameraB) = true ∧ camDistance A cameraB ≠ JVal.fin 0
        then some ⟨cameraB.index, camDistance A cameraB⟩
        else none))).take K).map NavCand.index

theorem navCandidates_eq_specCands (cameras : List SceneCamera) (i : Nat)
    (A : SceneCamera) :
    navCandidates cameras i A = (List.range cameras.length).filterMap (fun j =>
      if j = i then none
      else
        match cameras[j]? with
        | none => none
        | some cameraB =>
          if isFin (camDistance A cameraB) = true ∧ camDistance A cameraB ≠ JVal.fin 0
          then some ⟨cameraB.index, camDistance A cameraB⟩
          else none) := by
  unfold navCandidates
  apply List.filterMap_congr
  intro j _
  by_cases hij : j = i
  · simp [hij]
  rw [if_neg hij, if_neg hij]
  cases hcam : cameras[j]? with
  | none => rfl
  | some cameraB =>
    dsimp only
    by_cases hfin : isFin (camDistance A cameraB) = true
    · by_cases hzero : camDistance A cameraB = JVal.fin 0
      · rw [if_pos (by simp [hfin, hzero]), if_neg (by simp [hzero])]
      · rw [if_neg (by simp [hfin, hzero]), if_pos ⟨hfin, hzero⟩]
    · have hfin2 : isFin (camDistance A cameraB) = false := Bool.eq_false_iff.mpr hfin
      rw [if_pos (by simp [hfin2]), if_neg (by simp [hfin])]

/-- C9: with positionally indexed cameras and a positive neighbor cap K,
the Phase-A pool of every camera equals plain K-nearest-neighbor
selection over the other cameras at finite nonzero distance, sorted
ascending by distance; the radius parameter r has no effect on the
result (the right-hand side does not mention it), so the radius-then-
top-up implementation is equivalent to K-nearest selection of
min(K, M) cameras. -/
theorem C9_pool_kNearest (cameras : List SceneCamera) (r : JVal) (K : Nat)
    (hK : 1 ≤ K)
    (hpos : cameras.map SceneCamera.index = List.range cameras.length) :
    ∀ p (hp : p < cameras.length)
      (hp2 : p < (buildNavigationGraph cameras r K).length),
      ((buildNavigationGraph cameras r K).get ⟨p, hp2⟩).navigableNeighbors =
        kNearestSpec cameras K p (cameras.get ⟨p, hp⟩) := by
  intro p hp hp2
  rw [buildNavigationGraph_get cameras r K p hp hp2]
  dsimp only
  rw [navPool_eq cameras r K p _ hK (navCandidates_nodup hpos)]
  unfold kNearestSpec
  rw [← navCandidates_eq_specCands]

set_option maxRecDepth 100000 in
/-- C9 witness: the pool of camera 1 of the five-camera line scene,
built with a non-default radius of 100, equals the claim-side
K-nearest selection. -/
theorem C9_pool_kNearest_witness :
    ((buildNavigationGraph (buildSceneCameras lineExtrs (List.replicate 5 projK0) [] [])
        (JVal.fin 100) 6).getD 1 dummyCamera).navigableNeighbors =
      kNearestSpec (buildSceneCameras lineExtrs (List.replicate 5 projK0) [] []) 6 1
        ((buildSceneCameras lineExtrs (List.replicate 5 projK0) [] []).getD 1
          dummyCamera) := by
  have hp : 1 < (buildSceneCameras lineExtrs (List.replicate 5 projK0) [] []).length := by
    decide
  have hp2 : 1 < (buildNavigationGraph
      (buildSceneCameras lineExtrs (List.replicate 5 projK0) [] [])
      (JVal.fin 100) 6).length := by
    rw [buildNavigationGraph_length]
    exact hp
  have h := C9_pool_kNearest (buildSceneCameras lineExtrs (List.replicate 5 projK0) [] [])
    (JVal.fin 100) 6 (by decide) (by decide) 1 hp hp2
  rw [List.getD_eq_getElem _ _ hp2, List.getD_eq_getElem _ _ hp]
  rw [List.get_eq_getElem, List.get_eq_getElem] at h
  exact h

theorem jlt_to_jle_fin {a b : ℚ} (h : jlt (JVal.fin a) (JVal.fin b) = true) :
    jle (JVal.fin a) (JVal.fin b) = true := by
  simp only [jlt, JVal.toNum, decide_eq_true_eq] at h
  simp only [jle, JVal.toNum, decide_eq_true_eq]
  exact le_of_lt h

theorem not_jlt_to_jle_fin {a b : ℚ} (h : jlt (JVal.fin a) (JVal.fin b) = false) :
    jle (JVal.fin b) (JVal.fin a) = true := by
  simp only [jlt, JVal.toNum, decide_eq_false_iff_not, not_lt] at h
  simp only [jle, JVal.toNum, decide_eq_true_eq]
  exact h

theorem jle_jlt_trans_fin {a b c : ℚ} (h1 : jle (JVal.fin a) (JVal.fin b) = true)
    (h2 : jlt (JVal.fin b) (JVal.fin c) = true) :
    jle (JVal.fin a) (JVal.fin c) = true := by
  simp only [jle, jlt, JVal.toNum, decide_eq_true_eq] at h1 h2 ⊢
  exact le_of_lt (lt_of_le_of_lt h1 h2)

theorem pickStep_isSome (s : Side) (acc : Option (JVal × Nat)) (c : SideCand)
    (h : acc.isSome = true) : (pickStep s acc c).isSome = true := by
  cases acc with
  | none => simp at h
  | some bdi =>
    obtain ⟨bd, bi⟩ := bdi
    unfold pickStep
    by_cases hs : c.side = s
    · rw [if_pos hs]
      have h2 : (if jlt c.dist bd = true then some (c.dist, c.idx)
          else some (bd, bi)).isSome = true := by
        split_ifs <;> simp
      exact h2
    · rw [if_neg hs]
      simp

theorem foldl_pickStep_isSome (s : Side) :
    ∀ (cs : List SideCand) (acc : Option (JVal × Nat)),
      acc.isSome = true → (cs.foldl (pickStep s) acc).isSome = true := by
  intro cs
  induction cs with
  | nil => intro acc h; simpa using h
  | cons c rest ih =>
    intro acc h
    rw [List.foldl_cons]
    exact ih (pickStep s acc c) (pickStep_isSome s acc c h)

theorem pickBest_eq_none_iff (s : Side) (cs : List SideCand) :
    pickBest cs s = none ↔ ∀ c ∈ cs, c.side ≠ s := by
  induction cs with
  | nil => simp [pickBest]
  | cons c rest ih =>
    unfold pickBest at ih ⊢
    rw [List.foldl_cons]
    by_cases hside : c.side = s
    · have hsome : (pickStep s none c).isSome = true := by
        unfold pickStep
        rw [if_pos hside]
        simp
      have h2 := foldl_pickStep_isSome s rest (pickStep s none c) hsome
      constructor
      · intro h
        rw [h] at h2
        simp at h2
      · intro h
        exact absurd hside (h c (by simp))
    · have hstep : pickStep s none c = none := by
        unfold pickStep
        rw [if_neg hside]
      rw [hstep, ih]
      constructor
      · intro h x hx
        rcases List.mem_cons.mp hx with rfl | hx2
        · exact hside
        · exact h x hx2
      · intro h x hx
        exact h x (by simp [hx])

theorem pickBest_spec (s : Side) (P : JVal → Nat → Prop) :
    ∀ (cs : List SideCand) (acc : Option (JVal × Nat)),
      (∀ d i, acc = some (d, i) → P d i) →
      (∀ c ∈ cs, c.side = s → P c.dist c.idx) →
      ∀ d i, cs.foldl (pickStep s) acc = some (d, i) → P d i := by
  intro cs
  induction cs with
  | nil =>
    intro acc hacc _ d i h
    rw [List.foldl_nil] at h
    exact hacc d i h
  | cons c rest ih =>
    intro acc hacc hcs d i h
    rw [List.foldl_cons] at h
    refine ih (pickStep s acc c) ?_ (fun x hx hxs => hcs x (by simp [hx]) hxs) d i h
    intro d2 i2 hstep
    unfold pickStep at hstep
    by_cases hside : c.side = s
    · rw [if_pos hside] at hstep
      cases acc with
      | none =>
        have hstep2 : some (c.dist, c.idx) = some (d2, i2) := hstep
        injection hstep2 with h2
        injection h2 with h3 h4
        rw [← h3, ← h4]
        exact hcs c (by simp) hside
      | some bdi =>
        obtain ⟨bd, bi⟩ := bdi
        have hstep2 : (if jlt c.dist bd = true then some (c.dist, c.idx)
            else some (bd, bi)) = some (d2, i2) := hstep
        by_cases hlt : jlt c.dist bd = true
        · rw [if_pos hlt] at hstep2
          injection hstep2 with h2
          injection h2 with h3 h4
          rw [← h3, ← h4]
          exact hcs c (by simp) hside
        · rw [if_neg hlt] at hstep2
          injection hstep2 with h2
          injection h2 with h3 h4
          rw [← h3, ← h4]
          exact hacc bd bi rfl
    · rw [if_neg hside] at hstep
      exact hacc d2 i2 hstep

theorem pickBest_mem {cs : List SideCand} {s : Side} {d : JVal} {i : Nat}
    (h : pickBest cs s = some (d, i)) :
    ∃ c ∈ cs, c.side = s ∧ c.dist = d ∧ c.idx = i :=
  pickBest_spec s (fun d2 i2 => ∃ c ∈ cs, c.side = s ∧ c.dist = d2 ∧ c.idx = i2) cs none
    (by simp) (fun c hc hside => ⟨c, hc, hside, rfl, rfl⟩) d i h

theorem setAdd_mem {sel : List Nat} {x j : Nat} (h : j ∈ setAdd sel x) :
    j ∈ sel ∨ j = x := by
  unfold setAdd at h
  split_ifs at h
  · exact Or.inl h
  · rcases List.mem_append.mp h with h2 | h2
    · exact Or.inl h2
    · exact Or.inr (List.mem_singleton.mp h2)

theorem navLoop1_mem (r : JVal) (K : Nat) :
    ∀ (cs : List NavCand) (sel : List Nat) (j : Nat),
      j ∈ navLoop1 r K cs sel → j ∈ sel ∨ ∃ c ∈ cs, j = c.index := by
  intro cs
  induction cs with
  | nil =>
    intro sel j h
    simp only [navLoop1] at h
    exact Or.inl h
  | cons c rest ih =>
    intro sel j h
    simp only [navLoop1] at h
    have hstep : ∀ s : List Nat,
        (s = (if jle c.distance r then setAdd sel c.index else sel)) →
        j ∈ s → j ∈ sel ∨ ∃ x ∈ c :: rest, j = x.index := by
      intro s hs hj
      rw [hs] at hj
      split_ifs at hj
      · rcases setAdd_mem hj with h2 | h2
        · exact Or.inl h2
        · exact Or.inr ⟨c, by simp, h2⟩
      · exact Or.inl hj
    split_ifs at h with hle hK hK
    · rcases hstep _ (by rw [if_pos hle]) h with h2 | h2
      · exact Or.inl h2
      · exact Or.inr h2
    · rcases ih (setAdd sel c.index) j h with h2 | h2
      · rcases hstep _ (by rw [if_pos hle]) h2 with h3 | h3
        · exact Or.inl h3
        · exact Or.inr h3
      · obtain ⟨x, hx, hjx⟩ := h2
        exact Or.inr ⟨x, by simp [hx], hjx⟩
    · exact Or.inl h
    · rcases ih sel j h with h2 | h2
      · exact Or.inl h2
      · obtain ⟨x, hx, hjx⟩ := h2
        exact Or.inr ⟨x, by simp [hx], hjx⟩

theorem navLoop2_mem (K : Nat) :
    ∀ (cs : List NavCand) (sel : List Nat) (j : Nat),
      j ∈ navLoop2 K cs sel → j ∈ sel ∨ ∃ c ∈ cs, j = c.index := by
  intro cs
  induction cs with
  | nil =>
    intro sel j h
    simp only [navLoop2] at h
    exact Or.inl h
  | cons c rest ih =>
    intro sel j h
    simp only [navLoop2] at h
    split_ifs at h with hc hK
    · rcases ih sel j h with h2 | h2
      · exact Or.inl h2
      · obtain ⟨x, hx, hjx⟩ := h2
        exact Or.inr ⟨x, by simp [hx], hjx⟩
    · rcases List.mem_append.mp h with h2 | h2
      · exact Or.inl h2
      · exact Or.inr ⟨c, by simp, List.mem_singleton.mp h2⟩
    · rcases ih (sel ++ [c.index]) j h with h2 | h2
      · rcases List.mem_append.mp h2 with h3 | h3
        · exact Or.inl h3
        · exact Or.inr ⟨c, by simp, List.mem_singleton.mp h3⟩
      · obtain ⟨x, hx, hjx⟩ := h2
        exact Or.inr ⟨x, by simp [hx], hjx⟩

theorem navPool_mem {cameras : List SceneCamera} {r : JVal} {K : Nat} {i : Nat}
    {A : SceneCamera} {j : Nat} (h : j ∈ navPool cameras r K i A) :
    ∃ c ∈ navCandidates cameras i A, j = c.index := by
  simp only [navPool] at h
  split_ifs at h
  · rcases navLoop2_mem K _ _ j h with h2 | h2
    · rcases navLoop1_mem r K _ _ j h2 with h3 | h3
      · simp at h3
      · obtain ⟨c, hc, hjc⟩ := h3
        exact ⟨c, mem_sortCands.mp hc, hjc⟩
    · obtain ⟨c, hc, hjc⟩ := h2
      exact ⟨c, mem_sortCands.mp hc, hjc⟩
  · rcases navLoop1_mem r K _ _ j h with h2 | h2
    · simp at h2
    · obtain ⟨c, hc, hjc⟩ := h2
      exact ⟨c, mem_sortCands.mp hc, hjc⟩

theorem mem_sideCandidates {cameras : List SceneCamera} {A : SceneCamera} {c : SideCand}
    (hc : c ∈ sideCandidates cameras A) :
    c.idx ∈ A.navigableNeighbors ∧
    ∃ B, camByIndexGet cameras c.idx = some B ∧
      c.dist = jhypot3 (jsub B.positionWorld.x A.positionWorld.x)
                       (jsub B.positionWorld.y A.positionWorld.y)
                       (jsub B.positionWorld.z A.positionWorld.z) ∧
      isFin c.dist = true ∧ c.dist ≠ JVal.fin 0 := by
  simp only [sideCandidates, List.mem_filterMap] at hc
  obtain ⟨n, hn, hcn⟩ := hc
  cases hcam : camByIndexGet cameras n with
  | none =>
    rw [hcam] at hcn
    exact absurd hcn (by simp)
  | some B =>
    rw [hcam] at hcn
    dsimp only at hcn
    by_cases hguard :
        (!(isFin (jhypot3 (jsub B.positionWorld.x A.positionWorld.x)
            (jsub B.positionWorld.y A.positionWorld.y)
            (jsub B.positionWorld.z A.positionWorld.z))) ||
          (jhypot3 (jsub B.positionWorld.x A.positionWorld.x)
            (jsub B.positionWorld.y A.positionWorld.y)
            (jsub B.positionWorld.z A.positionWorld.z) == JVal.fin 0)) = true
    · rw [if_pos hguard] at hcn
      exact absurd hcn (by simp)
    · rw [if_neg hguard] at hcn
      simp only [Bool.or_eq_true, Bool.not_eq_true', beq_iff_eq, not_or] at hguard
      push_neg at hguard
      obtain ⟨hfin, hne⟩ := hguard
      split_ifs at hcn
      · have hceq := Option.some_inj.mp hcn
        rw [← hceq]
        exact ⟨hn, B, hcam, rfl, by simpa using hfin, hne⟩
      · have hceq := Option.some_inj.mp hcn
        rw [← hceq]
        exact ⟨hn, B, hcam, rfl, by simpa using hfin, hne⟩

theorem camByIndexGet_self {cameras : List SceneCamera} {A : SceneCamera}
    (hnd : (cameras.map SceneCamera.index).Nodup) (hA : A ∈ cameras) :
    camByIndexGet cameras A.index = some A := by
  unfold camByIndexGet
  have hArev : A ∈ cameras.reverse := List.mem_reverse.mpr hA
  have hsome : (cameras.reverse.find? (fun c => c.index == A.index)).isSome = true := by
    rw [List.find?_isSome]
    exact ⟨A, hArev, by simp⟩
  obtain ⟨B, hB⟩ := Option.isSome_iff_exists.mp hsome
  have hBmem : B ∈ cameras.reverse := List.mem_of_find?_eq_some hB
  have hBidx : B.index = A.index := by
    have := List.find?_some hB
    simpa using this
  have hinj := List.inj_on_of_nodup_map hnd
  have hBA : B = A := hinj (List.mem_reverse.mp hBmem) hA hBidx
  rw [hB, hBA]

theorem jsub_self (v : JVal) : jsub v v = JVal.fin 0 ∨ jsub v v = JVal.nan := by
  cases v with
  | fin q =>
    left
    show JVal.fin (qsub q q) = JVal.fin 0
    rw [qsub_eq, sub_self]
  | inf => right; rfl
  | ninf => right; rfl
  | nan => right; rfl
  | undef => right; rfl

theorem jhypot3_self_zero {dx dy dz : JVal}
    (hx : dx = JVal.fin 0 ∨ dx = JVal.nan) (hy : dy = JVal.fin 0 ∨ dy = JVal.nan)
    (hz : dz = JVal.fin 0 ∨ dz = JVal.nan)
    (hfin : isFin (jhypot3 dx dy dz) = true) : jhypot3 dx dy dz = JVal.fin 0 := by
  rcases hx with rfl | rfl <;> rcases hy with rfl | rfl <;> rcases hz with rfl | rfl <;>
    first
      | rfl
      | exact absurd hfin (by decide)

/-- C6: with positionally indexed cameras, the navigation structures
never contain a camera in its own neighbor pool (Phase A) or as its own
left/right neighbor (Phase B), and a candidate is only admitted — into
the Phase-A pool or the Phase-B side-candidate list — at a finite
nonzero distance from the camera. -/
theorem C6_no_self_no_nonfinite (cameras : List SceneCamera) (r : JVal) (K : Nat)
    (hpos : cameras.map SceneCamera.index = List.range cameras.length) :
    (∀ p (hp : p < cameras.length)
       (hp2 : p < (buildNavigationGraph cameras r K).length),
       (cameras.get ⟨p, hp⟩).index ∉
           ((buildNavigationGraph cameras r K).get ⟨p, hp2⟩).navigableNeighbors ∧
       ∀ j ∈ ((buildNavigationGraph cameras r K).get ⟨p, hp2⟩).navigableNeighbors,
         ∃ hj : j < cameras.length,
           isFin (camDistance (cameras.get ⟨p, hp⟩) (cameras.get ⟨j, hj⟩)) = true ∧
           camDistance (cameras.get ⟨p, hp⟩) (cameras.get ⟨j, hj⟩) ≠ JVal.fin 0) ∧
    (∀ A ∈ cameras,
       (∀ c ∈ sideCandidates cameras A,
          c.idx ≠ A.index ∧ isFin c.dist = true ∧ c.dist ≠ JVal.fin 0) ∧
       (∀ l, (navPairFor cameras A).left = some l → l ≠ A.index) ∧
       (∀ l, (navPairFor cameras A).right = some l → l ≠ A.index)) := by
  have hnd : (cameras.map SceneCamera.index).Nodup := by
    rw [hpos]
    exact List.nodup_range cameras.length
  constructor
  · intro p hp hp2
    rw [buildNavigationGraph_get cameras r K p hp hp2]
    dsimp only
    have hpool : ∀ j ∈ navPool cameras r K p (cameras.get ⟨p, hp⟩),
        ∃ hj : j < cameras.length, j ≠ p ∧
          isFin (camDistance (cameras.get ⟨p, hp⟩) (cameras.get ⟨j, hj⟩)) = true ∧
          camDistance (cameras.get ⟨p, hp⟩) (cameras.get ⟨j, hj⟩) ≠ JVal.fin 0 := by
      intro j hj
      obtain ⟨c, hc, hjc⟩ := navPool_mem hj
      obtain ⟨j0, hj0, hj0p, hfin, hne, hceq⟩ := mem_navCandidates_iff.mp hc
      have hjj0 : j = j0 := by
        rw [hjc, hceq]
        exact positional_get hpos hj0
      subst hjj0
      exact ⟨hj0, hj0p, hfin, hne⟩
    constructor
    · intro hmem
      obtain ⟨hj, hjp, -, -⟩ := hpool _ hmem
      exact hjp (positional_get hpos hp)
    · intro j hj
      obtain ⟨hjlt, -, hfin, hne⟩ := hpool j hj
      exact ⟨hjlt, hfin, hne⟩
  · intro A hA
    have hside : ∀ c ∈ sideCandidates cameras A,
        c.idx ≠ A.index ∧ isFin c.dist = true ∧ c.dist ≠ JVal.fin 0 := by
      intro c hc
      obtain ⟨-, B, hB, hdist, hfin, hne⟩ := mem_sideCandidates hc
      refine ⟨?_, hfin, hne⟩
      intro hidx
      rw [hidx, camByIndexGet_self hnd hA] at hB
      have hBA : B = A := (Option.some_inj.mp hB).symm
      subst hBA
      have hzero : jhypot3 (jsub B.positionWorld.x B.positionWorld.x)
          (jsub B.positionWorld.y B.positionWorld.y)
          (jsub B.positionWorld.z B.positionWorld.z) = JVal.fin 0 :=
        jhypot3_self_zero (jsub_self B.positionWorld.x) (jsub_self B.positionWorld.y)
          (jsub_self B.positionWorld.z) (hdist ▸ hfin)
      exact hne (hdist.trans hzero)
    refine ⟨hside, ?_, ?_⟩
    · intro l hl
      have hl2 : (pickBest (sideCandidates cameras A) Side.left).map
          (fun p => p.2) = some l := hl
      cases hpick : pickBest (sideCandidates cameras A) Side.left with
      | none => rw [hpick] at hl2; exact absurd hl2 (by simp)
      | some di =>
        obtain ⟨d, i⟩ := di
        rw [hpick] at hl2
        have hli : i = l := by simpa using hl2
        obtain ⟨c, hc, -, -, hcidx⟩ := pickBest_mem hpick
        rw [← hli, ← hcidx]
        exact (hside c hc).1
    · intro l hl
      have hl2 : (pickBest (sideCandidates cameras A) Side.right).map
          (fun p => p.2) = some l := hl
      cases hpick : pickBest (sideCandidates cameras A) Side.right with
      | none => rw [hpick] at hl2; exact absurd hl2 (by simp)
      | some di =>
        obtain ⟨d, i⟩ := di
        rw [hpick] at hl2
        have hli : i = l := by simpa using hl2
        obtain ⟨c, hc, -, -, hcidx⟩ := pickBest_mem hpick
        rw [← hli, ← hcidx]
        exact (hside c hc).1

set_option maxRecDepth 100000 in
/-- C6 witness: camera 1 of the five-camera line scene is not in its own
Phase-A pool, and its Phase-B left neighbor 0 differs from its own
index. -/
theorem C6_no_self_no_nonfinite_witness :
    ((buildSceneCameras lineExtrs (List.replicate 5 projK0) [] []).getD 1
        dummyCamera).index ∉
      ((buildNavigationGraph (buildSceneCameras lineExtrs (List.replicate 5 projK0) [] [])
          (JVal.fin 100) 6).getD 1 dummyCamera).navigableNeighbors ∧
    (0 : Nat) ≠ ((buildSceneCameras lineExtrs (List.replicate 5 projK0) [] []).getD 1
        dummyCamera).index := by
  have h := C6_no_self_no_nonfinite
    (buildSceneCameras lineExtrs (List.replicate 5 projK0) [] []) (JVal.fin 100) 6
    (by decide)
  have hp : 1 < (buildSceneCameras lineExtrs (List.replicate 5 projK0) [] []).length := by
    decide
  have hp2 : 1 < (buildNavigationGraph
      (buildSceneCameras lineExtrs (List.replicate 5 projK0) [] [])
      (JVal.fin 100) 6).length := by
    rw [buildNavigationGraph_length]
    exact hp
  have h1 := (h.1 1 hp hp2).1
  have hA : (buildSceneCameras lineExtrs (List.replicate 5 projK0) [] []).getD 1
      dummyCamera ∈ buildSceneCameras lineExtrs (List.replicate 5 projK0) [] [] := by
    rw [List.getD_eq_getElem _ _ hp]
    exact List.getElem_mem hp
  have h2 := (h.2 _ hA).2.1 0 (by decide)
  refine ⟨?_, h2⟩
  rw [List.getD_eq_getElem _ _ hp, List.getD_eq_getElem _ _ hp2]
  rw [List.get_eq_getElem, List.get_eq_getElem] at h1
  exact h1

/-- Claim-side definition for C1: Phase-B classification in the claim's
own terms. With `delta = P_B - P_A`, `camX = dot(row0 R_A, delta)` and
`camZ = dot(row2 R_A, delta)`, the candidate is rejected iff
(`|camX| < |camZ|` and `camZ <= 0`) or `camX` is non-finite or
`|camX| < 1e-6`; a survivor is classified right iff `camX > 0`, else
left, and carries the Phase-A distance to `A` and its camera index. -/
def claimPhaseBClassify (A B : SceneCamera) : Option SideCand :=
  let dx := jsub B.positionWorld.x A.positionWorld.x
  let dy := jsub B.positionWorld.y A.positionWorld.y
  let dz := jsub B.positionWorld.z A.positionWorld.z
  let camX := jadd (jadd (jmul (jget2 A.rotationW2C 0 0) dx)
                         (jmul (jget2 A.rotationW2C 0 1) dy))
                   (jmul (jget2 A.rotationW2C 0 2) dz)
  let camZ := jadd (jadd (jmul (jget2 A.rotationW2C 2 0) dx)
                         (jmul (jget2 A.rotationW2C 2 1) dy))
                   (jmul (jget2 A.rotationW2C 2 2) dz)
  if (jlt (jabs camX) (jabs camZ) && jle camZ (JVal.fin 0)) || !(isFin camX)
      || jlt (jabs camX) NAV_EPS then none
  else some ⟨if jlt (JVal.fin 0) camX then Side.right else Side.left,
             camDistance A B, B.index⟩

/-- Side-indexed read of a navigation pair. -/
def pairSide (p : NavPair) : Side → Option Nat
  | Side.left => p.left
  | Side.right => p.right

theorem jle_refl_fin (q : ℚ) : jle (JVal.fin q) (JVal.fin q) = true := by
  simp [jle, JVal.toNum]

theorem jle_trans_fin {a b c : ℚ} (h1 : jle (JVal.fin a) (JVal.fin b) = true)
    (h2 : jle (JVal.fin b) (JVal.fin c) = true) :
    jle (JVal.fin a) (JVal.fin c) = true := by
  simp only [jle, JVal.toNum, decide_eq_true_eq] at h1 h2 ⊢
  exact le_trans h1 h2

theorem pickBest_min_go (s : Side) :
    ∀ (cs : List SideCand) (acc : Option (JVal × Nat)),
      (∀ c ∈ cs, c.side = s → ∃ q : ℚ, c.dist = JVal.fin q) →
      (∀ bd bi, acc = some (bd, bi) → ∃ q : ℚ, bd = JVal.fin q) →
      ∀ d i, cs.foldl (pickStep s) acc = some (d, i) →
        (∃ q : ℚ, d = JVal.fin q) ∧
        (∀ c ∈ cs, c.side = s → jle d c.dist = true) ∧
        (∀ bd bi, acc = some (bd, bi) → jle d bd = true) := by
  intro cs
  induction cs with
  | nil =>
    intro acc hcs hacc d i h
    rw [List.foldl_nil] at h
    obtain ⟨q, hq⟩ := hacc d i h
    refine ⟨⟨q, hq⟩, by simp, ?_⟩
    intro bd bi hbd
    rw [h] at hbd
    injection hbd with h2
    injection h2 with h3 h4
    rw [← h3, hq]
    exact jle_refl_fin q
  | cons c rest ih =>
    intro acc hcs hacc d i h
    rw [List.foldl_cons] at h
    have hcfin : c.side = s → ∃ q : ℚ, c.dist = JVal.fin q := hcs c (by simp)
    have hacc2 : ∀ bd bi, pickStep s acc c = some (bd, bi) → ∃ q : ℚ, bd = JVal.fin q := by
      intro bd bi hstep
      unfold pickStep at hstep
      by_cases hside : c.side = s
      · rw [if_pos hside] at hstep
        cases acc with
        | none =>
          have hstep2 : some (c.dist, c.idx) = some (bd, bi) := hstep
          injection hstep2 with h2
          injection h2 with h3 h4
          rw [← h3]
          exact hcfin hside
        | some bdi =>
          obtain ⟨bd0, bi0⟩ := bdi
          have hstep2 : (if jlt c.dist bd0 = true then some (c.dist, c.idx)
              else some (bd0, bi0)) = some (bd, bi) := hstep
          by_cases hlt : jlt c.dist bd0 = true
          · rw [if_pos hlt] at hstep2
            injection hstep2 with h2
            injection h2 with h3 h4
            rw [← h3]
            exact hcfin hside
          · rw [if_neg hlt] at hstep2
            injection hstep2 with h2
            injection h2 with h3 h4
            rw [← h3]
            exact hacc bd0 bi0 rfl
      · rw [if_neg hside] at hstep
        exact hacc bd bi hstep
    obtain ⟨hdfin, hrest, hacc3⟩ :=
      ih (pickStep s acc c) (fun x hx hxs => hcs x (by simp [hx]) hxs) hacc2 d i h
    obtain ⟨qd, hqd⟩ := hdfin
    refine ⟨⟨qd, hqd⟩, ?_, ?_⟩
    · intro x hx hxs
      rcases List.mem_cons.mp hx with rfl | hx2
      · by_cases hside : x.side = s
        · have hstep0 : ∀ v, pickStep s acc x = v → v = some (x.dist, x.idx) ∨
              (∃ bd0 bi0, acc = some (bd0, bi0) ∧ v = some (bd0, bi0) ∧
                jlt x.dist bd0 = false) := by
            intro v hv
            unfold pickStep at hv
            rw [if_pos hside] at hv
            cases acc with
            | none => exact Or.inl hv.symm
            | some bdi =>
              obtain ⟨bd0, bi0⟩ := bdi
              have hv2 : (if jlt x.dist bd0 = true then some (x.dist, x.idx)
                  else some (bd0, bi0)) = v := hv
              by_cases hlt : jlt x.dist bd0 = true
              · rw [if_pos hlt] at hv2
                exact Or.inl hv2.symm
              · rw [if_neg hlt] at hv2
                exact Or.inr ⟨bd0, bi0, rfl, hv2.symm, Bool.eq_false_iff.mpr hlt⟩
          rcases hstep0 _ rfl with hv | ⟨bd0, bi0, haccset, hv, hlt⟩
          · exact hacc3 x.dist x.idx hv
          · obtain ⟨qb, hqb⟩ := hacc bd0 bi0 haccset
            obtain ⟨qc, hqc⟩ := hcfin hside
            have h1 : jle d bd0 = true := hacc3 bd0 bi0 hv
            have h2 : jle bd0 x.dist = true := by
              rw [hqb, hqc]
              exact not_jlt_to_jle_fin (by rw [← hqc, ← hqb]; exact hlt)
            rw [hqd, hqc]
            rw [hqd, hqb] at h1
            rw [hqb, hqc] at h2
            exact jle_trans_fin h1 h2
        · exact absurd hxs hside
      · exact hrest x hx2 hxs
    · intro bd bi hbd
      by_cases hside : c.side = s
      · have hstep0 : pickStep s acc c = (if jlt c.dist bd = true
            then some (c.dist, c.idx) else some (bd, bi)) := by
          unfold pickStep
          rw [if_pos hside, hbd]
        by_cases hlt : jlt c.dist bd = true
        · rw [if_pos hlt] at hstep0
          have h1 : jle d c.dist = true := hacc3 c.dist c.idx hstep0
          obtain ⟨qb, hqb⟩ := hacc bd bi hbd
          obtain ⟨qc, hqc⟩ := hcfin hside
          have h2 : jle c.dist bd = true := by
            rw [hqc, hqb]
            exact jlt_to_jle_fin (by rw [← hqc, ← hqb]; exact hlt)
          rw [hqd, hqb]
          rw [hqd, hqc] at h1
          rw [hqc, hqb] at h2
          exact jle_trans_fin h1 h2
        · rw [if_neg hlt] at hstep0
          exact hacc3 bd bi hstep0
      · have hstep0 : pickStep s acc c = some (bd, bi) := by
          unfold pickStep
          rw [if_neg hside, hbd]
        exact hacc3 bd bi hstep0

theorem pickBest_min {cs : List SideCand} {s : Side} {d : JVal} {i : Nat}
    (hfin : ∀ c ∈ cs, c.side = s → ∃ q : ℚ, c.dist = JVal.fin q)
    (h : pickBest cs s = some (d, i)) :
    ∀ c ∈ cs, c.side = s → jle d c.dist = true :=
  (pickBest_min_go s cs none hfin (by simp) d i h).2.1

theorem jadd_isFin {a b : JVal} (h : isFin (jadd a b) = true) :
    isFin a = true ∧ isFin b = true := by
  cases a <;> cases b <;> simp_all [jadd, JVal.toNum, isFin]

theorem jmul_self_isFin {a : JVal} (h : isFin (jmul a a) = true) : isFin a = true := by
  cases a <;> simp_all [jmul, JVal.toNum, isFin]

theorem jsqrt_isFin {a : JVal} (h : isFin (jsqrt a) = true) : isFin a = true := by
  cases a <;> simp_all [jsqrt, JVal.toNum, isFin]

theorem camDistance_components_fin {A B : SceneCamera}
    (h : isFin (camDistance A B) = true) :
    isFin (jsub B.positionWorld.x A.positionWorld.x) = true ∧
    isFin (jsub B.positionWorld.y A.positionWorld.y) = true ∧
    isFin (jsub B.positionWorld.z A.positionWorld.z) = true := by
  simp only [camDistance] at h
  have h1 := jsqrt_isFin h
  obtain ⟨h2, h3⟩ := jadd_isFin h1
  obtain ⟨h4, h5⟩ := jadd_isFin h2
  exact ⟨jmul_self_isFin h4, jmul_self_isFin h5, jmul_self_isFin h3⟩

theorem jhypot3_eq_camDistance {A B : SceneCamera}
    (h : isFin (camDistance A B) = true) :
    jhypot3 (jsub B.positionWorld.x A.positionWorld.x)
      (jsub B.positionWorld.y A.positionWorld.y)
      (jsub B.positionWorld.z A.positionWorld.z) = camDistance A B := by
  obtain ⟨hx, hy, hz⟩ := camDistance_components_fin h
  obtain ⟨x, hx2⟩ := isFin_iff.mp hx
  obtain ⟨y, hy2⟩ := isFin_iff.mp hy
  obtain ⟨z, hz2⟩ := isFin_iff.mp hz
  simp only [camDistance, hx2, hy2, hz2]
  have hS : ¬ (qadd (qadd (qmul x x) (qmul y y)) (qmul z z) < 0) := by
    rw [not_lt, qadd_eq, qadd_eq, qmul_eq, qmul_eq, qmul_eq]
    exact add_nonneg (add_nonneg (mul_self_nonneg x) (mul_self_nonneg y))
      (mul_self_nonneg z)
  show JVal.fin (ratSqrt (qadd (qadd (qmul x x) (qmul y y)) (qmul z z))) =
    jsqrt (JVal.fin (qadd (qadd (qmul x x) (qmul y y)) (qmul z z)))
  simp [jsqrt, JVal.toNum, hS]

theorem intSqrt_eq_zero_iff {n : Nat} : intSqrt n = 0 ↔ n = 0 := by
  constructor
  · intro h
    by_contra hn
    have h1 : 1 ≤ n := Nat.one_le_iff_ne_zero.mpr hn
    have h2 : 1 ≤ Nat.findGreatest (fun r => r * r ≤ n) n :=
      Nat.le_findGreatest h1 (by simpa using h1)
    unfold intSqrt at h
    omega
  · intro h
    subst h
    rfl

theorem ratSqrt_eq_zero {q : ℚ} (hq : 0 ≤ q) (h : ratSqrt q = 0) : q = 0 := by
  unfold ratSqrt at h
  have hden : intSqrt q.den ≠ 0 := by
    intro h0
    exact q.den_nz (intSqrt_eq_zero_iff.mp h0)
  have hnum : (intSqrt q.num.toNat : Int) = 0 := (Rat.mkRat_eq_zero hden).mp h
  have hnum2 : intSqrt q.num.toNat = 0 := by exact_mod_cast hnum
  have hnum3 : q.num.toNat = 0 := intSqrt_eq_zero_iff.mp hnum2
  have hq2 : 0 ≤ q.num := Rat.num_nonneg.mpr hq
  have hnum4 : q.num = 0 := by omega
  exact Rat.zero_iff_num_zero.mpr hnum4

theorem camDistance_zero_delta {A B : SceneCamera}
    (hfin : isFin (camDistance A B) = true)
    (hzero : camDistance A B = JVal.fin 0) :
    jsub B.positionWorld.x A.positionWorld.x = JVal.fin 0 ∧
    jsub B.positionWorld.y A.positionWorld.y = JVal.fin 0 ∧
    jsub B.positionWorld.z A.positionWorld.z = JVal.fin 0 := by
  obtain ⟨hx, hy, hz⟩ := camDistance_components_fin hfin
  obtain ⟨x, hx2⟩ := isFin_iff.mp hx
  obtain ⟨y, hy2⟩ := isFin_iff.mp hy
  obtain ⟨z, hz2⟩ := isFin_iff.mp hz
  simp only [camDistance, hx2, hy2, hz2] at hzero
  have hS : ¬ (qadd (qadd (qmul x x) (qmul y y)) (qmul z z) < 0) := by
    rw [not_lt, qadd_eq, qadd_eq, qmul_eq, qmul_eq, qmul_eq]
    exact add_nonneg (add_nonneg (mul_self_nonneg x) (mul_self_nonneg y))
      (mul_self_nonneg z)
  have hzero2 : (if qadd (qadd (qmul x x) (qmul y y)) (qmul z z) < 0 then JVal.nan
      else JVal.fin (ratSqrt (qadd (qadd (qmul x x) (qmul y y)) (qmul z z)))) =
      JVal.fin 0 := hzero
  rw [if_neg hS] at hzero2
  have hrs : ratSqrt (qadd (qadd (qmul x x) (qmul y y)) (qmul z z)) = 0 := by
    injection hzero2
  have hSz : qadd (qadd (qmul x x) (qmul y y)) (qmul z z) = 0 :=
    ratSqrt_eq_zero (not_lt.mp hS) hrs
  rw [qadd_eq, qadd_eq, qmul_eq, qmul_eq, qmul_eq] at hSz
  have hx0 : x = 0 := by nlinarith [mul_self_nonneg x, mul_self_nonneg y, mul_self_nonneg z]
  have hy0 : y = 0 := by nlinarith [mul_self_nonneg x, mul_self_nonneg y, mul_self_nonneg z]
  have hz0 : z = 0 := by nlinarith [mul_self_nonneg x, mul_self_nonneg y, mul_self_nonneg z]
  rw [hx2, hy2, hz2, hx0, hy0, hz0]
  exact ⟨rfl, rfl, rfl⟩

theorem jmul_zero_right (v : JVal) :
    jmul v (JVal.fin 0) = JVal.fin 0 ∨ jmul v (JVal.fin 0) = JVal.nan := by
  cases v with
  | fin q =>
    left
    show JVal.fin (qmul q 0) = JVal.fin 0
    rw [qmul_eq, mul_zero]
  | inf => right; decide
  | ninf => right; decide
  | nan => right; decide
  | undef => right; decide

theorem camX_zero_cases {e1 e2 e3 : JVal} :
    jadd (jadd (jmul e1 (JVal.fin 0)) (jmul e2 (JVal.fin 0))) (jmul e3 (JVal.fin 0)) =
      JVal.fin 0 ∨
    jadd (jadd (jmul e1 (JVal.fin 0)) (jmul e2 (JVal.fin 0))) (jmul e3 (JVal.fin 0)) =
      JVal.nan := by
  rcases jmul_zero_right e1 with h1 | h1 <;> rcases jmul_zero_right e2 with h2 | h2 <;>
    rcases jmul_zero_right e3 with h3 | h3 <;> rw [h1, h2, h3] <;>
    first
      | exact Or.inl (by decide)
      | exact Or.inr (by decide)

theorem jget2_ne_undef {m : List (List JVal)} {rows cols r c : Nat}
    (hm : IsMat m rows cols) (hr : r < rows) (hc : c < cols) :
    jget2 m r c ≠ JVal.undef := by
  obtain ⟨hlen, hrow, hent⟩ := hm
  have hrlen : r < m.length := by rw [hlen]; exact hr
  have hrowmem : m.getD r [] ∈ m := by
    rw [List.getD_eq_getElem _ _ hrlen]
    exact List.getElem_mem hrlen
  have hclen : c < (m.getD r []).length := by rw [hrow _ hrowmem]; exact hc
  have hentmem : (m.getD r []).getD c JVal.undef ∈ m.getD r [] := by
    rw [List.getD_eq_getElem _ _ hclen]
    exact List.getElem_mem hclen
  exact hent _ hrowmem _ hentmem

theorem coalesce0_jget2 {m : List (List JVal)} {rows cols r c : Nat}
    (hm : IsMat m rows cols) (hr : r < rows) (hc : c < cols) :
    coalesce0 (jget2 m r c) = jget2 m r c :=
  coalesce0_ne (jget2_ne_undef hm hr hc)

theorem classify_eq_of (camX camZ dist : JVal) (jidx : Nat)
    (hfin : isFin dist = true)
    (hzero_imp : dist = JVal.fin 0 → camX = JVal.fin 0 ∨ camX = JVal.nan) :
    (if !(isFin dist) || (dist == JVal.fin 0) then none
     else
       if jlt (jabs camX) (jabs camZ) && jle camZ (JVal.fin 0) then none
       else if !(isFin camX) || jlt (jabs camX) NAV_EPS then none
       else some (⟨if jlt (JVal.fin 0) camX then Side.right else Side.left,
                   dist, jidx⟩ : SideCand)) =
    (if (jlt (jabs camX) (jabs camZ) && jle camZ (JVal.fin 0)) || !(isFin camX)
        || jlt (jabs camX) NAV_EPS then none
     else some ⟨if jlt (JVal.fin 0) camX then Side.right else Side.left,
                dist, jidx⟩) := by
  by_cases hz : dist = JVal.fin 0
  · rw [if_pos (by simp [hz])]
    rcases hzero_imp hz with hx | hx
    · have h3 : jlt (jabs (JVal.fin 0)) NAV_EPS = true := by decide
      rw [if_pos (by simp [hx, h3])]
    · rw [if_pos (by simp [hx, isFin])]
  · rw [if_neg (by simp [hfin, hz])]
    by_cases h1 : (jlt (jabs camX) (jabs camZ) && jle camZ (JVal.fin 0)) = true
    · rw [if_pos h1]
      have hcond : ((jlt (jabs camX) (jabs camZ) && jle camZ (JVal.fin 0)) ||
          !(isFin camX) || jlt (jabs camX) NAV_EPS) = true := by
        simp only [Bool.or_eq_true]
        exact Or.inl (Or.inl h1)
      rw [if_pos hcond]
    · by_cases h2 : (!(isFin camX) || jlt (jabs camX) NAV_EPS) = true
      · rw [if_neg h1, if_pos h2]
        have hcond : ((jlt (jabs camX) (jabs camZ) && jle camZ (JVal.fin 0)) ||
            !(isFin camX) || jlt (jabs camX) NAV_EPS) = true := by
          simp only [Bool.or_eq_true] at h2 ⊢
          rcases h2 with h2a | h2b
          · exact Or.inl (Or.inr h2a)
          · exact Or.inr h2b
        rw [if_pos hcond]
      · have hcond : ¬ ((jlt (jabs camX) (jabs camZ) && jle camZ (JVal.fin 0)) ||
            !(isFin camX) || jlt (jabs camX) NAV_EPS) = true := by
          intro hc
          simp only [Bool.or_eq_true] at hc
          rcases hc with (hc1 | hc2) | hc3
          · exact h1 hc1
          · exact h2 (by simp only [Bool.or_eq_true]; exact Or.inl hc2)
          · exact h2 (by simp only [Bool.or_eq_true]; exact Or.inr hc3)
        rw [if_neg h1, if_neg h2, if_neg hcond]

theorem camByIndexGet_pos {cameras : List SceneCamera}
    (hpos : cameras.map SceneCamera.index = List.range cameras.length)
    {j : Nat} (hj : j < cameras.length) :
    camByIndexGet cameras j = some (cameras.get ⟨j, hj⟩) := by
  have hnd : (cameras.map SceneCamera.index).Nodup := by
    rw [hpos]
    exact List.nodup_range cameras.length
  have hmem : cameras.get ⟨j, hj⟩ ∈ cameras := by
    rw [List.get_eq_getElem]
    exact List.getElem_mem hj
  have h := camByIndexGet_self hnd hmem
  rw [positional_get hpos hj] at h
  exact h

theorem sideCandidates_eq_claim (cameras : List SceneCamera) (A : SceneCamera)
    (hpos : cameras.map SceneCamera.index = List.range cameras.length)
    (hR : IsMat A.rotationW2C 3 3)
    (hpool : ∀ j ∈ A.navigableNeighbors, j < cameras.length ∧
      isFin (camDistance A (cameras.getD j dummyCamera)) = true) :
    sideCandidates cameras A = A.navigableNeighbors.filterMap (fun j =>
      match cameras[j]? with
      | none => none
      | some B => claimPhaseBClassify A B) := by
  unfold sideCandidates
  apply List.filterMap_congr
  intro j hjmem
  obtain ⟨hj, hfin0⟩ := hpool j hjmem
  have hfin : isFin (camDistance A (cameras.get ⟨j, hj⟩)) = true := by
    rw [List.getD_eq_getElem _ _ hj] at hfin0
    exact hfin0
  have hcam : camByIndexGet cameras j = some (cameras.get ⟨j, hj⟩) :=
    camByIndexGet_pos hpos hj
  have hcam2 : cameras[j]? = some (cameras.get ⟨j, hj⟩) := by
    rw [List.getElem?_eq_getElem hj]
    rfl
  rw [hcam, hcam2]
  set B := cameras.get ⟨j, hj⟩ with hBdef
  have hBidx : B.index = j := positional_get hpos hj
  dsimp only
  simp only [claimPhaseBClassify]
  rw [hBidx]
  rw [coalesce0_jget2 hR (by norm_num) (by norm_num),
      coalesce0_jget2 hR (by norm_num) (by norm_num),
      coalesce0_jget2 hR (by norm_num) (by norm_num),
      coalesce0_jget2 hR (by norm_num) (by norm_num),
      coalesce0_jget2 hR (by norm_num) (by norm_num),
      coalesce0_jget2 hR (by norm_num) (by norm_num)]
  rw [jhypot3_eq_camDistance hfin]
  exact classify_eq_of _ _ _ _ hfin
    (fun hz => by
      obtain ⟨hdx, hdy, hdz⟩ := camDistance_zero_delta hfin hz
      rw [hdx, hdy, hdz]
      exact camX_zero_cases)

/-- C1: for a camera `A` of a positionally indexed scene whose rotation
is a well-formed 3x3 matrix and whose pooled neighbors are at finite
Phase-A distance, Phase-B classification of the pooled candidates is
exactly the claim's rule (`claimPhaseBClassify`: reject iff mostly
behind, non-finite `camX`, or `|camX| < 1e-6`; side right iff
`camX > 0`), and each side of the stored navigation pair is empty iff
that side has no survivor and otherwise holds exactly a survivor of
that side with minimal distance. -/
theorem C1_phaseB_classification (cameras : List SceneCamera) (A : SceneCamera)
    (hpos : cameras.map SceneCamera.index = List.range cameras.length)
    (hR : IsMat A.rotationW2C 3 3)
    (hpool : ∀ j ∈ A.navigableNeighbors, j < cameras.length ∧
      isFin (camDistance A (cameras.getD j dummyCamera)) = true) :
    sideCandidates cameras A = A.navigableNeighbors.filterMap (fun j =>
      match cameras[j]? with
      | none => none
      | some B => claimPhaseBClassify A B) ∧
    ∀ s : Side,
      (pairSide (navPairFor cameras A) s = none ↔
        ∀ c ∈ sideCandidates cameras A, c.side ≠ s) ∧
      (∀ l, pairSide (navPairFor cameras A) s = some l →
        ∃ c ∈ sideCandidates cameras A, c.side = s ∧ c.idx = l ∧
          ∀ c2 ∈ sideCandidates cameras A, c2.side = s →
            jle c.dist c2.dist = true) := by
  refine ⟨sideCandidates_eq_claim cameras A hpos hR hpool, ?_⟩
  intro s
  have hps : pairSide (navPairFor cameras A) s =
      (pickBest (sideCandidates cameras A) s).map (fun p => p.2) := by
    cases s <;> rfl
  rw [hps]
  constructor
  · constructor
    · intro hnone
      cases hpick : pickBest (sideCandidates cameras A) s with
      | none => exact (pickBest_eq_none_iff s _).mp hpick
      | some di =>
        rw [hpick] at hnone
        exact absurd hnone (by simp)
    · intro hnos
      rw [(pickBest_eq_none_iff s _).mpr hnos]
      rfl
  · intro l hl
    cases hpick : pickBest (sideCandidates cameras A) s with
    | none =>
      rw [hpick] at hl
      exact absurd hl (by simp)
    | some di =>
      obtain ⟨d, i⟩ := di
      rw [hpick] at hl
      have hli : i = l := by simpa using hl
      obtain ⟨c, hc, hcs, hcd, hcidx⟩ := pickBest_mem hpick
      have hfins : ∀ c2 ∈ sideCandidates cameras A, c2.side = s →
          ∃ q : ℚ, c2.dist = JVal.fin q := by
        intro c2 hc2 _
        obtain ⟨-, B, -, -, hfin2, -⟩ := mem_sideCandidates hc2
        exact isFin_iff.mp hfin2
      have hmin := pickBest_min hfins hpick
      refine ⟨c, hc, hcs, hli ▸ hcidx, ?_⟩
      intro c2 hc2 hc2s
      rw [hcd]
      exact hmin c2 hc2 hc2s

set_option maxRecDepth 100000 in
/-- C1 witness: the Phase-B candidate list of camera 1 of the
five-camera line scene equals the claim-side classification of its
pooled neighbors. -/
theorem C1_phaseB_classification_witness :
    sideCandidates (buildSceneCameras lineExtrs (List.replicate 5 projK0) [] [])
        ((buildSceneCameras lineExtrs (List.replicate 5 projK0) [] []).getD 1
          dummyCamera) =
      ((buildSceneCameras lineExtrs (List.replicate 5 projK0) [] []).getD 1
          dummyCamera).navigableNeighbors.filterMap (fun j =>
        match (buildSceneCameras lineExtrs (List.replicate 5 projK0) [] [])[j]? with
        | none => none
        | some B => claimPhaseBClassify
            ((buildSceneCameras lineExtrs (List.replicate 5 projK0) [] []).getD 1
              dummyCamera) B) :=
  (C1_phaseB_classification (buildSceneCameras lineExtrs (List.replicate 5 projK0) [] [])
    ((buildSceneCameras lineExtrs (List.replicate 5 projK0) [] []).getD 1 dummyCamera)
    (by decide) (by decide) (by decide)).1

